import Mathlib

/-!
Verification development for the MAU_Backbone reasoning controller.

This file shallowly embeds the core of the repository:
`src/client/client_lib/cot.py` (the ChainOfThought controller),
`src/client/client_lib/tooling.py` (tool-call detection),
`src/client/client_lib/sandbox.py` (session memory) and
`src/client/client_lib/reasoning.py` (the reasoning trace graph),
and proves properties of the embedding.

Modelling conventions:
* Python strings are Lean `String`s; character-index operations are carried
  out on `List Char` (Python indexes by code point, as does `String.toList`).
* Python `dict`s that hold JSON data are association lists
  `List (String × Json)`; real dicts have no duplicate keys, which appears
  as `Nodup` hypotheses on the key lists.
* JSON numbers are modelled as integers; float literals are outside the
  model (floating point is not shallowly embeddable).
* External collaborators (the language model stream, the MCP server's tool
  list and call results, the sentence-transformer embedder, hashlib digests)
  are oracles passed in as function parameters; repository code that
  consumes them — including `Tooling.execute_tool_from_text` with its
  unguarded `json.loads` calls — is modelled, not abstracted.
* Tool-result blobs are modelled with string-or-absent `view` and string
  `response` values, the shape cot.py line 562 declares
  (`List[Tuple[str, str, str]]`); blobs outside that fragment are not
  modelled.
-/

/-! ## Python-style string utilities -/

/-- The character class of Python's `\s` (ASCII part) and `str.strip()`. -/
def pySpace (c : Char) : Bool :=
  c = ' ' || c = '\t' || c = '\n' || c = '\r' || c = '\x0b' || c = '\x0c'

/-- Python `s.strip()` (whitespace on both ends). -/
def pyStrip (s : String) : String :=
  String.mk (((s.toList.dropWhile pySpace).reverse.dropWhile pySpace).reverse)

/-- Python `s.rstrip()` (trailing whitespace). -/
def pyRstrip (s : String) : String :=
  String.mk ((s.toList.reverse.dropWhile pySpace).reverse)

/-- Python `s.strip('\n ')` as used in the explanation/JSON split. -/
def stripNlSpace (s : String) : String :=
  let p : Char → Bool := fun c => c = '\n' || c = ' '
  String.mk (((s.toList.dropWhile p).reverse.dropWhile p).reverse)

/-- Python `s[:n]` (truncation by code points). -/
def strTakeN (s : String) (n : Nat) : String :=
  String.mk (s.toList.take n)

/-- Python `s[n:]`. -/
def strDropN (s : String) (n : Nat) : String :=
  String.mk (s.toList.drop n)

/-- Does `pat` occur at the head of `cs`? -/
def startsWithL (pat cs : List Char) : Bool :=
  match pat, cs with
  | [], _ => true
  | _ :: _, [] => false
  | p :: ps, c :: rest => p = c && startsWithL ps rest

/-- Index of the first occurrence of `pat` in `cs` (Python `str.find` when
some, `-1` when none). -/
def findSubIdx (pat : List Char) : List Char → Option Nat
  | [] => if startsWithL pat [] then some 0 else none
  | c :: rest =>
    if startsWithL pat (c :: rest) then some 0
    else (findSubIdx pat rest).map (· + 1)

/-- Python `pat in s`. -/
def containsStr (s pat : String) : Bool :=
  (findSubIdx pat.toList s.toList).isSome

/-- Python `s[:s.find(pat)]`: the text before the first occurrence of `pat`;
when `pat` is absent Python's `find` returns `-1` and `s[:-1]` drops the
last character. -/
def beforeFirst (s pat : String) : String :=
  match findSubIdx pat.toList s.toList with
  | some i => String.mk (s.toList.take i)
  | none => String.mk s.toList.dropLast

/-! ## JSON values and `json.dumps(·, sort_keys=True, separators=(",", ":"))` -/

/-- JSON values, as produced by `json.loads` (numbers restricted to
integers, see the file header). -/
inductive Json where
  | null : Json
  | bool (b : Bool) : Json
  | num (n : Int) : Json
  | str (s : String) : Json
  | arr (elems : List Json) : Json
  | obj (entries : List (String × Json)) : Json

/-- One hex digit, lowercase, as in Python's `\uXXXX` escapes. -/
def hexDigit (n : Nat) : Char :=
  if n < 10 then Char.ofNat (48 + n) else Char.ofNat (87 + n)

/-- Four hex digits. -/
def hex4 (n : Nat) : String :=
  String.mk [hexDigit (n / 4096 % 16), hexDigit (n / 256 % 16),
             hexDigit (n / 16 % 16), hexDigit (n % 16)]

/-- Escaping of one character in a JSON string literal
(`json.dumps` default `ensure_ascii=True`). -/
def escapeJsonChar (c : Char) : String :=
  if c = '"' then "\\\""
  else if c = '\\' then "\\\\"
  else if c = '\n' then "\\n"
  else if c = '\r' then "\\r"
  else if c = '\t' then "\\t"
  else if c = '\x08' then "\\b"
  else if c = '\x0c' then "\\f"
  else if c.toNat < 32 then "\\u" ++ hex4 c.toNat
  else if c.toNat < 127 then String.mk [c]
  else if c.toNat < 65536 then "\\u" ++ hex4 c.toNat
  else
    "\\u" ++ hex4 (55296 + (c.toNat - 65536) / 1024) ++
    "\\u" ++ hex4 (56320 + (c.toNat - 65536) % 1024)

/-- A JSON string literal with quotes. -/
def jsonStrLit (s : String) : String :=
  "\"" ++ (s.toList.map escapeJsonChar).foldl (· ++ ·) "" ++ "\""

/-- The `","` item separator of `separators=(",", ":")`. -/
def joinComma (l : List String) : String :=
  String.intercalate "," l

/-- Python string comparison: lexicographic on code points (structural, so
the kernel can evaluate it; Lean's `String.lt` is the same order but is
implemented on byte iterators). -/
def pyStrLe : List Char → List Char → Bool
  | [], _ => true
  | _ :: _, [] => false
  | a :: as, b :: bs =>
    if a.toNat < b.toNat then true
    else if b.toNat < a.toNat then false
    else pyStrLe as bs

theorem char_eq_of_toNat_eq {a b : Char} (h : a.toNat = b.toNat) : a = b :=
  Char.ext (UInt32.ext (by simpa [Char.toNat] using h))

theorem pyStrLe_total : ∀ a b : List Char, pyStrLe a b = true ∨ pyStrLe b a = true
  | [], _ => Or.inl rfl
  | _ :: _, [] => Or.inr rfl
  | a :: as, b :: bs => by
    unfold pyStrLe
    by_cases h1 : a.toNat < b.toNat
    · left; rw [if_pos h1]
    · by_cases h2 : b.toNat < a.toNat
      · right; rw [if_pos h2]
      · rw [if_neg h1, if_neg h2, if_neg h2, if_neg h1]
        exact pyStrLe_total as bs

theorem pyStrLe_trans : ∀ a b c : List Char,
    pyStrLe a b = true → pyStrLe b c = true → pyStrLe a c = true
  | [], _, _, _, _ => rfl
  | _ :: _, [], _, h1, _ => by simp [pyStrLe] at h1
  | _ :: _, _ :: _, [], _, h2 => by simp [pyStrLe] at h2
  | x :: xs, y :: ys, z :: zs, h1, h2 => by
    unfold pyStrLe at h1 h2 ⊢
    by_cases hzy : z.toNat < y.toNat
    · rw [if_neg (by omega), if_pos hzy] at h2
      exact Bool.noConfusion h2
    · by_cases hxy : x.toNat < y.toNat
      · rw [if_pos (by omega)]
      · by_cases hyx : y.toNat < x.toNat
        · rw [if_neg hxy, if_pos hyx] at h1
          exact Bool.noConfusion h1
        · rw [if_neg hxy, if_neg hyx] at h1
          by_cases hyz : y.toNat < z.toNat
          · rw [if_pos (by omega)]
          · rw [if_neg hyz, if_neg hzy] at h2
            rw [if_neg (by omega), if_neg (by omega)]
            exact pyStrLe_trans xs ys zs h1 h2

theorem pyStrLe_antisymm : ∀ a b : List Char,
    pyStrLe a b = true → pyStrLe b a = true → a = b
  | [], [], _, _ => rfl
  | [], _ :: _, _, h2 => by simp [pyStrLe] at h2
  | _ :: _, [], h1, _ => by simp [pyStrLe] at h1
  | a :: as, b :: bs, h1, h2 => by
    unfold pyStrLe at h1 h2
    by_cases hab : a.toNat < b.toNat
    · rw [if_neg (by omega), if_pos (by omega)] at h2
      exact Bool.noConfusion h2
    · by_cases hba : b.toNat < a.toNat
      · rw [if_neg hab, if_pos hba] at h1
        exact Bool.noConfusion h1
      · rw [if_neg hab, if_neg hba] at h1
        rw [if_neg hba, if_neg hab] at h2
        rw [char_eq_of_toNat_eq (by omega : a.toNat = b.toNat),
          pyStrLe_antisymm as bs h1 h2]

/-- Key order used by `sort_keys=True`: compare entries by key only, in
Python's code-point string order. -/
def keyLe (p q : String × String) : Prop := pyStrLe p.1.data q.1.data = true

instance : DecidableRel keyLe :=
  fun p q => inferInstanceAs (Decidable (pyStrLe p.1.data q.1.data = true))

instance : IsTotal (String × String) keyLe := ⟨fun a b => pyStrLe_total a.1.data b.1.data⟩

instance : IsTrans (String × String) keyLe :=
  ⟨fun _ _ _ h1 h2 => pyStrLe_trans _ _ _ h1 h2⟩

/-- Sort rendered object entries by key (`sort_keys=True`; Python's sort is
stable and dict keys are distinct, so any by-key sort yields its output). -/
def sortEntries (l : List (String × String)) : List (String × String) :=
  List.insertionSort keyLe l

mutual

/-- `json.dumps(v, sort_keys=True, separators=(",", ":"))`. Object entries
are rendered first and then sorted by key (`sortEntries` compares keys
only, so this equals sorting the entries and then rendering). -/
def Json.dumps : Json → String
  | .null => "null"
  | .bool b => if b then "true" else "false"
  | .num n => toString n
  | .str s => jsonStrLit s
  | .arr elems => "[" ++ joinComma (dumpsList elems) ++ "]"
  | .obj entries =>
    "\x7b" ++ joinComma ((sortEntries (dumpsEntries entries)).map Prod.snd) ++ "\x7d"

/-- Serialized array elements, in order. -/
def dumpsList : List Json → List String
  | [] => []
  | j :: rest => Json.dumps j :: dumpsList rest

/-- Object entries as (key, rendered `"key":value`) pairs, in order. -/
def dumpsEntries : List (String × Json) → List (String × String)
  | [] => []
  | (k, v) :: rest => (k, jsonStrLit k ++ ":" ++ Json.dumps v) :: dumpsEntries rest

end

theorem dumpsEntries_eq_map (l : List (String × Json)) :
    dumpsEntries l = l.map (fun kv => (kv.1, jsonStrLit kv.1 ++ ":" ++ Json.dumps kv.2)) := by
  induction l with
  | nil => rfl
  | cons kv rest ih =>
    obtain ⟨k, v⟩ := kv
    simp [dumpsEntries, ih]

/-- Unfolding of `Json.dumps` on objects via `List.map`. -/
theorem Json.dumps_obj (entries : List (String × Json)) :
    Json.dumps (.obj entries) =
      "\x7b" ++
        joinComma ((sortEntries (entries.map
          (fun kv => (kv.1, jsonStrLit kv.1 ++ ":" ++ Json.dumps kv.2)))).map
          Prod.snd) ++
      "\x7d" := by
  rw [Json.dumps, dumpsEntries_eq_map]

/-- `ChainOfThought._canonical_tool_id` (cot.py lines 514-530):
`f"{tool_name}:{json.dumps(arguments, sort_keys=True, separators=(',', ':'))}"`.
The `except` branch (`str(arguments)`) is unreachable for JSON-representable
arguments and is not modelled. -/
def canonical_tool_id (toolName : String) (arguments : List (String × Json)) : String :=
  toolName ++ ":" ++ Json.dumps (.obj arguments)

/-! Permutation invariance of the sorted serialization. -/

theorem sortEntries_eq_of_perm (l₁ l₂ : List (String × String))
    (hp : l₁.Perm l₂) (hn : (l₁.map Prod.fst).Nodup) :
    sortEntries l₁ = sortEntries l₂ := by
  have p1 := List.perm_insertionSort keyLe l₁
  have p2 := List.perm_insertionSort keyLe l₂
  have s1 := List.sorted_insertionSort keyLe l₁
  have s2 := List.sorted_insertionSort keyLe l₂
  have hn2 : (l₂.map Prod.fst).Nodup := ((hp.map Prod.fst).nodup_iff).mp hn
  have hns1 : ((sortEntries l₁).map Prod.fst).Nodup :=
    ((p1.map Prod.fst).nodup_iff).mpr hn
  have hns2 : ((sortEntries l₂).map Prod.fst).Nodup :=
    ((p2.map Prod.fst).nodup_iff).mpr hn2
  have strict1 : (sortEntries l₁).Pairwise (fun p q => keyLe p q ∧ p.1 ≠ q.1) := by
    have hne := List.pairwise_map.mp hns1
    exact (s1.and hne).imp (fun h => ⟨h.1, h.2⟩)
  have strict2 : (sortEntries l₂).Pairwise (fun p q => keyLe p q ∧ p.1 ≠ q.1) := by
    have hne := List.pairwise_map.mp hns2
    exact (s2.and hne).imp (fun h => ⟨h.1, h.2⟩)
  haveI : IsAntisymm (String × String) (fun p q => keyLe p q ∧ p.1 ≠ q.1) :=
    ⟨fun a b h1 h2 =>
      absurd (String.ext (pyStrLe_antisymm a.1.data b.1.data h1.1 h2.1)) h1.2⟩
  exact List.eq_of_perm_of_sorted (p1.trans (hp.trans p2.symm)) strict1 strict2

/-- C3: For every tool name and every argument mapping, the canonical tool id is
deterministic and independent of the order of the argument entries: two
argument lists that are permutations of each other (with the distinct keys a
Python dict guarantees) produce equal canonical ids. -/
theorem canonical_id_order_independent (n : String) (a b : List (String × Json))
    (hp : a.Perm b) (hn : (a.map Prod.fst).Nodup) :
    canonical_tool_id n a = canonical_tool_id n b := by
  unfold canonical_tool_id
  rw [Json.dumps_obj, Json.dumps_obj]
  have hs : sortEntries (a.map (fun kv => (kv.1, jsonStrLit kv.1 ++ ":" ++ Json.dumps kv.2)))
      = sortEntries (b.map (fun kv => (kv.1, jsonStrLit kv.1 ++ ":" ++ Json.dumps kv.2))) := by
    apply sortEntries_eq_of_perm
    · exact hp.map _
    · rw [List.map_map]
      exact hn
  rw [hs]

/-- Witness for C3: `canonical_id("t", {a:1,b:2}) = canonical_id("t", {b:2,a:1})`. -/
theorem canonical_id_order_independent_witness :
    canonical_tool_id "t" [("a", Json.num 1), ("b", Json.num 2)] =
      canonical_tool_id "t" [("b", Json.num 2), ("a", Json.num 1)] :=
  canonical_id_order_independent "t" _ _
    (List.Perm.swap ("b", Json.num 2) ("a", Json.num 1) [])
    (by decide)

/-! ## `json.loads` (model)

Recursive-descent parser with fuel. Python's `json.loads` accepts floats;
this model rejects them (numbers outside the integer grammar fail), see the
file header. Duplicate object keys follow Python dict semantics (first-key
position, last value wins). -/

/-- JSON's whitespace characters. -/
def jsonWsChar (c : Char) : Bool :=
  c = ' ' || c = '\t' || c = '\n' || c = '\r'

/-- Hex digit value. -/
def parseHex (c : Char) : Option Nat :=
  if '0' ≤ c && c ≤ '9' then some (c.toNat - 48)
  else if 'a' ≤ c && c ≤ 'f' then some (c.toNat - 87)
  else if 'A' ≤ c && c ≤ 'F' then some (c.toNat - 55)
  else none

/-- Body of a JSON string after the opening quote; returns the decoded
characters and the remainder after the closing quote. -/
def parseStrBody : Nat → List Char → Option (List Char × List Char)
  | 0, _ => none
  | _ + 1, [] => none
  | f + 1, c :: rest =>
    if c = '"' then some ([], rest)
    else if c = '\\' then
      match rest with
      | [] => none
      | e :: rest2 =>
        if e = '"' then (parseStrBody f rest2).map (fun p => ('"' :: p.1, p.2))
        else if e = '\\' then (parseStrBody f rest2).map (fun p => ('\\' :: p.1, p.2))
        else if e = '/' then (parseStrBody f rest2).map (fun p => ('/' :: p.1, p.2))
        else if e = 'b' then (parseStrBody f rest2).map (fun p => ('\x08' :: p.1, p.2))
        else if e = 'f' then (parseStrBody f rest2).map (fun p => ('\x0c' :: p.1, p.2))
        else if e = 'n' then (parseStrBody f rest2).map (fun p => ('\n' :: p.1, p.2))
        else if e = 'r' then (parseStrBody f rest2).map (fun p => ('\r' :: p.1, p.2))
        else if e = 't' then (parseStrBody f rest2).map (fun p => ('\t' :: p.1, p.2))
        else if e = 'u' then
          match rest2 with
          | h1 :: h2 :: h3 :: h4 :: rest3 =>
            match parseHex h1, parseHex h2, parseHex h3, parseHex h4 with
            | some a, some b, some c2, some d =>
              let v := a * 4096 + b * 256 + c2 * 16 + d
              if v < 55296 then (parseStrBody f rest3).map (fun p => (Char.ofNat v :: p.1, p.2))
              else if 57343 < v then (parseStrBody f rest3).map (fun p => (Char.ofNat v :: p.1, p.2))
              else none
            | _, _, _, _ => none
          | _ => none
        else none
    else if c.toNat < 32 then none
    else (parseStrBody f rest).map (fun p => (c :: p.1, p.2))

/-- Digits to a natural number. -/
def digitsToNat (ds : List Char) : Nat :=
  ds.foldl (fun a c => a * 10 + (c.toNat - 48)) 0

/-- Integer token of the JSON number grammar (floats rejected, see header). -/
def parseIntToken (cs : List Char) : Option (Int × List Char) :=
  let neg := match cs with
    | '-' :: _ => true
    | _ => false
  let cs1 := if neg then cs.drop 1 else cs
  match cs1 with
  | [] => none
  | c :: _ =>
    if !c.isDigit then none
    else
      let ds := cs1.takeWhile (·.isDigit)
      let rest := cs1.dropWhile (·.isDigit)
      if ds.length > 1 && ds.headI = '0' then none
      else
        match rest with
        | '.' :: _ => none
        | 'e' :: _ => none
        | 'E' :: _ => none
        | _ =>
          let n : Int := Int.ofNat (digitsToNat ds)
          some ((if neg then -n else n), rest)

/-- Python dict update `d[k] = v`: value replaced in place, new keys appended. -/
def dictUpsert (acc : List (String × Json)) (kv : String × Json) : List (String × Json) :=
  if acc.any (fun p => p.1 == kv.1) then
    acc.map (fun p => if p.1 == kv.1 then (p.1, kv.2) else p)
  else acc ++ [kv]

/-- Python dict construction from parsed key/value pairs. -/
def dictify (l : List (String × Json)) : List (String × Json) :=
  l.foldl dictUpsert []

mutual

/-- JSON value (after optional leading whitespace). -/
def parseVal : Nat → List Char → Option (Json × List Char)
  | 0, _ => none
  | f + 1, cs =>
    match cs.dropWhile jsonWsChar with
    | [] => none
    | c :: rest =>
      if c = 'n' then
        if startsWithL "ull".toList rest then some (.null, rest.drop 3) else none
      else if c = 't' then
        if startsWithL "rue".toList rest then some (.bool true, rest.drop 3) else none
      else if c = 'f' then
        if startsWithL "alse".toList rest then some (.bool false, rest.drop 4) else none
      else if c = '"' then
        (parseStrBody (rest.length + 1) rest).map (fun p => (.str (String.mk p.1), p.2))
      else if c = '[' then
        match rest.dropWhile jsonWsChar with
        | ']' :: r2 => some (.arr [], r2)
        | _ => (parseArrItems f rest).map (fun p => (.arr p.1, p.2))
      else if c = '\x7b' then
        match rest.dropWhile jsonWsChar with
        | '\x7d' :: r2 => some (.obj [], r2)
        | _ => (parseObjItems f rest).map (fun p => (.obj (dictify p.1), p.2))
      else (parseIntToken (c :: rest)).map (fun p => (.num p.1, p.2))

/-- Comma-separated array items up to `]`. -/
def parseArrItems : Nat → List Char → Option (List Json × List Char)
  | 0, _ => none
  | f + 1, cs =>
    match parseVal f cs with
    | none => none
    | some (v, rest) =>
      match rest.dropWhile jsonWsChar with
      | ',' :: r2 => (parseArrItems f r2).map (fun p => (v :: p.1, p.2))
      | ']' :: r2 => some ([v], r2)
      | _ => none

/-- Comma-separated `"key": value` items up to the closing brace. -/
def parseObjItems : Nat → List Char → Option (List (String × Json) × List Char)
  | 0, _ => none
  | f + 1, cs =>
    match cs.dropWhile jsonWsChar with
    | '"' :: rest =>
      match parseStrBody (rest.length + 1) rest with
      | none => none
      | some (k, r1) =>
        match r1.dropWhile jsonWsChar with
        | ':' :: r2 =>
          match parseVal f r2 with
          | none => none
          | some (v, r3) =>
            match r3.dropWhile jsonWsChar with
            | ',' :: r4 => (parseObjItems f r4).map (fun p => ((String.mk k, v) :: p.1, p.2))
            | '\x7d' :: r4 => some ([(String.mk k, v)], r4)
            | _ => none
        | _ => none
    | _ => none

end

/-- `json.loads` on a whole document. -/
def json_loads (s : String) : Option Json :=
  match parseVal (2 * s.toList.length + 4) s.toList with
  | none => none
  | some (v, rest) => if (rest.dropWhile jsonWsChar).isEmpty then some v else none

/-! ## `Tooling.detect_tool_calls` (tooling.py lines 10-27)

`TOOL_PATTERN` is compiled with `re.DOTALL`:
```text
(?:```(?:json)?\s*)? \x7b \s* "name" \s* : \s* "([^"]+)" \s* ,
\s* "arguments" \s* : \s* (\x7b.*?\x7d) \s* \x7d (?:\s*```)?
```
The lazy group 2 takes the shortest brace-terminated blob whose
continuation `\s*\x7d` matches; `re.findall` scans left to right,
non-overlapping. -/

/-- Match a literal, returning the remainder. -/
def expectLit (lit cs : List Char) : Option (List Char) :=
  if startsWithL lit cs then some (cs.drop lit.length) else none

/-- The optional opening code fence `(?:```(?:json)?\s*)?`. -/
def tryFence (cs : List Char) : Option (List Char) :=
  match expectLit "```".toList cs with
  | none => none
  | some r1 =>
    let r2 := match expectLit "json".toList r1 with
      | some x => x
      | none => r1
    some (r2.dropWhile pySpace)

/-- Group 1, `([^"]+)"`: a nonempty run of non-quote characters up to the
closing quote. -/
def nameToken (cs : List Char) : Option (String × List Char) :=
  let tok := cs.takeWhile (fun c => c != '"')
  let rest := cs.dropWhile (fun c => c != '"')
  match tok, rest with
  | [], _ => none
  | _ :: _, '"' :: r => some (String.mk tok, r)
  | _, _ => none

/-- Group 2, `(\x7b.*?\x7d)` followed by `\s*\x7d`: lazy scan for the
earliest closing brace whose continuation matches; the outer brace is
consumed. -/
def lazyArgsScan : Nat → List Char → List Char → Option (List Char × List Char)
  | 0, _, _ => none
  | _ + 1, _, [] => none
  | f + 1, acc, c :: rest =>
    if c = '\x7d' then
      match rest.dropWhile pySpace with
      | '\x7d' :: r2 => some (acc ++ ['\x7d'], r2)
      | _ => lazyArgsScan f (acc ++ ['\x7d']) rest
    else lazyArgsScan f (acc ++ [c]) rest

/-- One attempt to match `TOOL_PATTERN` at the head of `cs`; on success
returns (group 1, group 2, remainder after the whole match). -/
def matchToolAt (cs : List Char) : Option (String × String × List Char) := do
  let cs0 := match tryFence cs with
    | some r => r
    | none => cs
  let r1 ← expectLit ['\x7b'] cs0
  let r2 ← expectLit "\"name\"".toList (r1.dropWhile pySpace)
  let r3 ← expectLit [':'] (r2.dropWhile pySpace)
  let r4 ← expectLit ['"'] (r3.dropWhile pySpace)
  let (nm, r5) ← nameToken r4
  let r6 ← expectLit [','] (r5.dropWhile pySpace)
  let r7 ← expectLit "\"arguments\"".toList (r6.dropWhile pySpace)
  let r8 ← expectLit [':'] (r7.dropWhile pySpace)
  let r9 ← expectLit ['\x7b'] (r8.dropWhile pySpace)
  let (argsChars, r11) ← lazyArgsScan r9.length ['\x7b'] r9
  let r12 := match expectLit "```".toList (r11.dropWhile pySpace) with
    | some x => x
    | none => r11
  return (nm, String.mk argsChars, r12)

/-- `re.findall(TOOL_PATTERN, text)`: left-to-right, non-overlapping. -/
def findToolMatchesAux : Nat → List Char → List (String × String)
  | 0, _ => []
  | _ + 1, [] => []
  | f + 1, cs@(_ :: rest) =>
    match matchToolAt cs with
    | some (n, a, rem) => (n, a) :: findToolMatchesAux f rem
    | none => findToolMatchesAux f rest

/-- All `TOOL_PATTERN` matches of a text. -/
def findToolMatches (text : String) : List (String × String) :=
  findToolMatchesAux text.toList.length text.toList

/-- `json.loads` of a captured argument blob, as a dict. A successful parse
of group 2 (which always starts with a brace) is always an object. -/
def argObjParse (s : String) : Option (List (String × Json)) :=
  match json_loads s with
  | some (.obj kvs) => some kvs
  | _ => none

/-- The list comprehension
`[(match[0], json.loads(match[1])) for match in matches]`: evaluated left to
right, the first malformed argument blob raises (`Except.error`). -/
def detectLoop : List (String × String) → Except String (List (String × List (String × Json)))
  | [] => .ok []
  | m :: rest =>
    match argObjParse m.2 with
    | none => .error ("JSONDecodeError: " ++ m.2)
    | some kvs =>
      match detectLoop rest with
      | .error e => .error e
      | .ok tl => .ok ((m.1, kvs) :: tl)

/-- `Tooling.detect_tool_calls` (tooling.py lines 19-27). -/
def detect_tool_calls (text : String) : Except String (List (String × List (String × Json))) :=
  detectLoop (findToolMatches text)

/-! ## Messages and `SandboxState` (sandbox.py)

`pydantic_ai` messages restricted to the parts this repository produces:
`ModelRequest([UserPromptPart])` and `ModelResponse([TextPart], model_name,
timestamp)`. Timestamps are opaque (`Nat`). -/

/-- A message part (`UserPromptPart` / `TextPart`). -/
inductive MsgPart where
  | userPrompt (content : String) : MsgPart
  | text (content : String) : MsgPart
deriving DecidableEq, Repr

/-- `part.content`. -/
def MsgPart.content : MsgPart → String
  | .userPrompt c => c
  | .text c => c

/-- A `pydantic_ai` `ModelMessage`. -/
inductive Msg where
  | request (parts : List MsgPart) : Msg
  | response (parts : List MsgPart) (modelName : String) (timestamp : Nat) : Msg
deriving DecidableEq, Repr

/-- Wire encoding of a part, modelling the external
`ModelMessagesTypeAdapter` format (discriminated by `part_kind`). -/
def MsgPart.toJson : MsgPart → Json
  | .userPrompt c => .obj [("content", .str c), ("part_kind", .str "user-prompt")]
  | .text c => .obj [("content", .str c), ("part_kind", .str "text")]

/-- Wire decoding of a part. -/
def partFromJson : Json → Option MsgPart
  | .obj kvs =>
    match kvs.lookup "part_kind", kvs.lookup "content" with
    | some (.str "user-prompt"), some (.str c) => some (.userPrompt c)
    | some (.str "text"), some (.str c) => some (.text c)
    | _, _ => none
  | _ => none

/-- Wire encoding of one message. -/
def Msg.toJson : Msg → Json
  | .request parts =>
    .obj [("kind", .str "request"), ("parts", .arr (parts.map MsgPart.toJson))]
  | .response parts mn ts =>
    .obj [("kind", .str "response"), ("parts", .arr (parts.map MsgPart.toJson)),
          ("model_name", .str mn), ("timestamp", .num (Int.ofNat ts))]

/-- Wire decoding of one message. -/
def msgFromJson : Json → Option Msg
  | .obj kvs =>
    match kvs.lookup "kind" with
    | some (.str "request") =>
      match kvs.lookup "parts" with
      | some (.arr ps) => (ps.mapM partFromJson).map Msg.request
      | _ => none
    | some (.str "response") =>
      match kvs.lookup "parts", kvs.lookup "model_name", kvs.lookup "timestamp" with
      | some (.arr ps), some (.str mn), some (.num ts) =>
        (ps.mapM partFromJson).map (fun l => Msg.response l mn ts.toNat)
      | _, _, _ => none
    | _ => none
  | _ => none

/-- `ModelMessagesTypeAdapter.dump_json` followed by `json.loads`
(the value stored under `"messages"` by `to_dict`). -/
def encodeMessages (msgs : List Msg) : Json :=
  .arr (msgs.map Msg.toJson)

/-- `json.dumps` followed by `ModelMessagesTypeAdapter.validate_json`
(the read side used by `from_dict`). -/
def decodeMessages : Json → Option (List Msg)
  | .arr ms => ms.mapM msgFromJson
  | _ => none

/-- `SandboxState` (sandbox.py lines 14-25). -/
structure SandboxState where
  topic_anchor : Option String
  messages : List Msg
  latest_view : Option String
deriving DecidableEq, Repr

/-- The dictionary produced by `SandboxState.to_dict`. -/
structure SandboxDict where
  topic_anchor : Option String
  latest_view : Option String
  messages : Json

/-- `SandboxState.to_dict` (sandbox.py lines 72-98); the serialization
`except` branch (degrade to `[]`) is unreachable for the message forms the
controller produces. -/
def SandboxState.to_dict (s : SandboxState) : SandboxDict :=
  { topic_anchor := s.topic_anchor
    latest_view := s.latest_view
    messages := encodeMessages s.messages }

/-- `SandboxState.from_dict` (sandbox.py lines 100-128): a failure to
deserialize degrades to an empty message list. -/
def SandboxState.from_dict (d : SandboxDict) : SandboxState :=
  { topic_anchor := d.topic_anchor
    latest_view := d.latest_view
    messages := (decodeMessages d.messages).getD [] }

/-- `SandboxState.reset` (sandbox.py lines 45-57). -/
def SandboxState.reset (q : String) (_s : SandboxState) : SandboxState :=
  { topic_anchor := some q, messages := [], latest_view := none }

/-- `SandboxState.extend` (sandbox.py lines 59-70); `if view:` is Python
truthiness, so `None` and `""` leave `latest_view` unchanged. -/
def SandboxState.extend (s : SandboxState) (m : Msg) (view : Option String) : SandboxState :=
  { s with
    messages := s.messages ++ [m]
    latest_view :=
      match view with
      | some v => if v = "" then s.latest_view else some v
      | none => s.latest_view }

/-- `SandboxState.is_same_topic` (sandbox.py lines 27-43) at the default
threshold 0.65; `difflib.SequenceMatcher(...).ratio()` is the external
similarity oracle `ratio`; `if not self.topic_anchor:` is truthiness, so an
empty anchor also returns false. -/
def is_same_topic (ratio : String → String → ℚ) (s : SandboxState) (q : String) : Bool :=
  match s.topic_anchor with
  | none => false
  | some a => if a = "" then false else decide (ratio a q ≥ 65 / 100)

/-! Round-trip lemmas for the message adapter. -/

theorem partFromJson_toJson (p : MsgPart) : partFromJson p.toJson = some p := by
  cases p <;> rfl

theorem parts_roundtrip (ps : List MsgPart) :
    (ps.map MsgPart.toJson).mapM partFromJson = some ps := by
  induction ps with
  | nil => rfl
  | cons p rest ih =>
    simp only [List.map_cons, List.mapM_cons, partFromJson_toJson, ih]
    rfl

theorem msgFromJson_toJson (m : Msg) : msgFromJson m.toJson = some m := by
  cases m with
  | request parts =>
    show ((parts.map MsgPart.toJson).mapM partFromJson).map Msg.request
        = some (.request parts)
    rw [parts_roundtrip]
    rfl
  | response parts mn ts =>
    show ((parts.map MsgPart.toJson).mapM partFromJson).map
          (fun l => Msg.response l mn (Int.ofNat ts).toNat)
        = some (.response parts mn ts)
    rw [parts_roundtrip]
    rfl

theorem messages_roundtrip (msgs : List Msg) :
    decodeMessages (encodeMessages msgs) = some msgs := by
  simp only [encodeMessages, decodeMessages]
  induction msgs with
  | nil => rfl
  | cons m rest ih =>
    simp only [List.map_cons, List.mapM_cons, msgFromJson_toJson, ih]
    rfl

/-- C4: For every `SandboxState`, serializing with `to_dict` and then
deserializing with `from_dict` reproduces the same message sequence, the
same `topic_anchor` and the same `latest_view` (round-trip law). -/
theorem sandbox_to_dict_from_dict_roundtrip (s : SandboxState) :
    SandboxState.from_dict s.to_dict = s := by
  simp only [SandboxState.to_dict, SandboxState.from_dict, messages_roundtrip]
  rfl

/-! ## `ChainOfThought.__init__`: topic handling and user-request seeding
(cot.py lines 114-121) -/

/-- The seed check of cot.py line 119:
`isinstance(m, ModelRequest) and m.parts and m.parts[0].content == query`. -/
def isSeededUserRequest (q : String) (m : Msg) : Bool :=
  match m with
  | .request (p :: _) => p.content == q
  | _ => false

/-- cot.py lines 119-121: append `ModelRequest([UserPromptPart(query)])`
unless already present. -/
def seedUserRequest (q : String) (s : SandboxState) : SandboxState :=
  if s.messages.any (isSeededUserRequest q) then s
  else s.extend (.request [.userPrompt q]) none

/-- The sandbox effect of `ChainOfThought.__init__` (cot.py lines 114-121):
reset on topic drift, then seed the user request at most once. -/
def cotInitSandbox (ratio : String → String → ℚ) (q : String) (s : SandboxState) : SandboxState :=
  let s1 := if is_same_topic ratio s q then s else s.reset q
  seedUserRequest q s1

/-- Is a message a `ModelRequest`? -/
def isUserRequest (m : Msg) : Bool :=
  match m with
  | .request _ => true
  | _ => false

/-- Two consecutive identical user-request messages somewhere in the list
(the configuration the C9 invariant forbids). -/
def hasConsecDupUserRequest : List Msg → Bool
  | m1 :: m2 :: rest => (isUserRequest m1 && m1 == m2) || hasConsecDupUserRequest (m2 :: rest)
  | _ => false

theorem seed_anchor (q : String) (t : SandboxState) :
    (seedUserRequest q t).topic_anchor = t.topic_anchor := by
  unfold seedUserRequest
  split <;> rfl

theorem seed_latest_view (q : String) (t : SandboxState) :
    (seedUserRequest q t).latest_view = t.latest_view := by
  unfold seedUserRequest
  split <;> rfl

theorem seeded_after_seed (q : String) (t : SandboxState) :
    (seedUserRequest q t).messages.any (isSeededUserRequest q) = true := by
  unfold seedUserRequest
  by_cases h : t.messages.any (isSeededUserRequest q) = true
  · simp [h]
  · simp only [h, if_false, Bool.not_eq_true] at *
    simp [SandboxState.extend, h, isSeededUserRequest, MsgPart.content]

theorem seed_of_seeded (q : String) (t : SandboxState)
    (h : t.messages.any (isSeededUserRequest q) = true) :
    seedUserRequest q t = t := by
  unfold seedUserRequest
  simp [h]

theorem seed_preserves_noConsecDup (q : String) (msgs : List Msg)
    (hinv : hasConsecDupUserRequest msgs = false)
    (hany : msgs.any (isSeededUserRequest q) = false) :
    hasConsecDupUserRequest (msgs ++ [Msg.request [MsgPart.userPrompt q]]) = false := by
  induction msgs with
  | nil => rfl
  | cons m tl ih =>
    cases tl with
    | nil =>
      simp only [List.cons_append, List.nil_append]
      simp only [hasConsecDupUserRequest]
      simp only [List.any_cons, List.any_nil, Bool.or_false] at hany
      have hm : (m == Msg.request [MsgPart.userPrompt q]) = false := by
        cases hbe : m == Msg.request [MsgPart.userPrompt q]
        · rfl
        · exfalso
          have : m = Msg.request [MsgPart.userPrompt q] := eq_of_beq hbe
          rw [this] at hany
          simp [isSeededUserRequest, MsgPart.content] at hany
      simp [hm]
    | cons m2 tl2 =>
      simp only [List.cons_append]
      simp only [hasConsecDupUserRequest] at hinv ⊢
      simp only [Bool.or_eq_false_iff] at hinv
      simp only [List.any_cons, Bool.or_eq_false_iff] at hany
      have h2 := ih hinv.2 (by simp [List.any_cons, hany.2.1, hany.2.2])
      simp only [List.cons_append] at h2
      simp [hinv.1, h2]

/-- C9: the sandbox message list never contains two consecutive identical
user-request messages for the same raw query text: constructing a
controller seeds the user query at most once (preserving the invariant),
and constructing a second controller with the same query on the same topic
changes nothing (the init is idempotent, given that `difflib` similarity of
a string with itself is 1). -/
theorem cot_init_seeds_once (ratio : String → String → ℚ) (q : String) (s : SandboxState)
    (hratio : ∀ t, ratio t t = 1)
    (hinv : hasConsecDupUserRequest s.messages = false) :
    hasConsecDupUserRequest (cotInitSandbox ratio q s).messages = false ∧
    cotInitSandbox ratio q (cotInitSandbox ratio q s) = cotInitSandbox ratio q s := by
  constructor
  · unfold cotInitSandbox seedUserRequest
    by_cases hsame : is_same_topic ratio s q = true
    · simp only [hsame, if_true]
      by_cases hany : s.messages.any (isSeededUserRequest q) = true
      · simpa [hany] using hinv
      · simp only [Bool.not_eq_true] at hany
        simp only [hany, if_false]
        exact seed_preserves_noConsecDup q s.messages hinv hany
    · simp only [Bool.not_eq_true] at hsame
      simp [hsame, SandboxState.reset, SandboxState.extend, hasConsecDupUserRequest]
  · set s' := cotInitSandbox ratio q s with hs'
    have hseeded : s'.messages.any (isSeededUserRequest q) = true := by
      rw [hs']
      unfold cotInitSandbox
      exact seeded_after_seed q _
    by_cases hsame2 : is_same_topic ratio s' q = true
    · unfold cotInitSandbox
      rw [hsame2]
      simp only [if_true]
      exact seed_of_seeded q s' hseeded
    · -- the first init must have reset (else the second topic test would pass)
      have hfst : is_same_topic ratio s q = false := by
        cases hv : is_same_topic ratio s q with
        | false => rfl
        | true =>
          exfalso
          apply hsame2
          have hanch : s'.topic_anchor = s.topic_anchor := by
            rw [hs']
            unfold cotInitSandbox
            rw [seed_anchor]
            simp [hv]
          unfold is_same_topic at hv ⊢
          rw [hanch]
          exact hv
      have hq : s'.topic_anchor = some q := by
        rw [hs']
        unfold cotInitSandbox
        rw [seed_anchor]
        simp [hfst, SandboxState.reset]
      -- with anchor `some q` and reflexive ratio, failing the test forces q = ""
      have hqempty : q = "" := by
        by_contra hne
        apply hsame2
        unfold is_same_topic
        rw [hq]
        simp only [hne, if_false]
        rw [hratio q]
        norm_num
      have hs'eq : s' = ⟨some q, [Msg.request [MsgPart.userPrompt q]], none⟩ := by
        rw [hs']
        unfold cotInitSandbox
        rw [hfst]
        simp only [Bool.false_eq_true, if_false]
        unfold seedUserRequest
        simp [SandboxState.reset, SandboxState.extend]
      unfold cotInitSandbox
      simp only [Bool.not_eq_true] at hsame2
      rw [hsame2]
      simp only [Bool.false_eq_true, if_false]
      rw [hs'eq]
      unfold seedUserRequest
      simp [SandboxState.reset, SandboxState.extend, isSeededUserRequest, MsgPart.content]

/-! ## The ChainOfThought controller (cot.py)

The language model stream and the MCP server are oracles in `Env`:
`outputs i` is the accumulated model text of iteration `i`
(`_stream_model_text`); `listTools` is the tool list `Tooling.list_tools`
fetches (that function catches its own errors and returns `[]`); and
`callTool name args` is the joined `item.text` content of
`Tooling.call_tool`'s `CallToolResult` (`none` when the call returned
`None`; the item texts are `str` fields). `Tooling.execute_tool_from_text`
itself is repository code (tooling.py lines 66-86) and is modelled below,
including its unguarded `json.loads` calls — re-detection of the
re-serialized minimal JSON and the result-blob parse — whose errors
propagate out of `run_cot`. `RunState` additionally carries two
observation channels that the Python code performs as side effects:
`execLog` (one entry per `_execute_tool` call that returns) and `finals`
(one increment per `_emit_final_answer` call), plus `persisted` for
`reasoning_graph.add_trace` calls. -/

/-- cot.py line 29. -/
def COT_END_PROMPT : String := "[END OF REASONING]"

/-- `Mode` (cot.py lines 34-37). -/
inductive Mode where
  | INTERACTIVE : Mode
  | FINALIZING : Mode
deriving DecidableEq, Repr

/-- `CoTConfig` (cot.py lines 40-48). -/
structure CoTConfig where
  max_iters : Nat
  max_tool_steps : Nat
  max_finalize_nudges : Nat
  auto_finalize_after_tool : Bool
deriving DecidableEq, Repr

/-- The default configuration values of `CoTConfig`. -/
def defaultCoTConfig : CoTConfig :=
  { max_iters := 5, max_tool_steps := 5, max_finalize_nudges := 2,
    auto_finalize_after_tool := false }

/-- `CoTState` (cot.py lines 51-60); the Python `set` is a membership list. -/
structure CoTState where
  iteration : Nat
  tools_run : Nat
  mode : Mode
  finalize_nudges : Nat
  executed_tool_calls : List String
  last_tool_id : Option String
  justification_nudges : Nat
deriving DecidableEq, Repr

/-- `CoTState()` defaults. -/
def initialCoTState : CoTState :=
  { iteration := 0, tools_run := 0, mode := .INTERACTIVE, finalize_nudges := 0,
    executed_tool_calls := [], last_tool_id := none, justification_nudges := 0 }

/-- One `(view, result, tool_used)` triple from
`Tooling.execute_tool_from_text`; cot.py line 562 declares the consumed
type `List[Tuple[str, str, str]]`, so the modelled blob fragment has
string-or-absent `view` and string `response` (see the file header). -/
structure ToolOutcome where
  view : Option String
  response : String
  toolUsed : String
deriving DecidableEq, Repr

/-- External collaborators and initial session state of one run. -/
structure Env where
  query : String
  agentName : String
  outputs : Nat → String
  listTools : List String
  callTool : String → List (String × Json) → Option String
  sandbox0 : SandboxState
  chain0 : List Msg

/-- The data handed to `reasoning_graph.add_trace` by `_persist_trace`
(each tool-call entry is wrapped as `{"raw_text": args}` at the graph
boundary). -/
structure Trace where
  query : String
  toolCalls : List (String × String)
  finalAnswer : String
deriving DecidableEq, Repr

/-- Mutable run context: the local `chain`, the sandbox, and the
observation channels described in the section header. -/
structure RunState where
  chain : List Msg
  sandbox : SandboxState
  execLog : List String
  persisted : List Trace
  finals : Nat

/-- A `ModelResponse` tagged `ChainOfThought:Model:<agent>`. -/
def modelRespMsg (agentName text : String) : Msg :=
  .response [.text text] ("ChainOfThought:Model:" ++ agentName) 0

/-- A `ModelResponse` tagged `ChainOfThought:Tool:<tool_used>`. -/
def toolRespMsg (toolUsed result : String) : Msg :=
  .response [.text result] ("ChainOfThought:Tool:" ++ toolUsed) 0

/-- `ChainOfThought._append` (cot.py lines 607-610). -/
def appendMsg (rs : RunState) (m : Msg) (view : Option String) : RunState :=
  { rs with chain := rs.chain ++ [m], sandbox := rs.sandbox.extend m view }

/-- `_append_model_text` (cot.py lines 612-615). -/
def append_model_text (agentName : String) (rs : RunState) (text : String) : RunState :=
  appendMsg rs (modelRespMsg agentName text) none

/-- `_append_model_note` (cot.py lines 617-620). -/
def append_model_note (agentName : String) (rs : RunState) (note : String) : RunState :=
  appendMsg rs (modelRespMsg agentName note) none

/-- `_contains_final_answer` (cot.py lines 412-423): `COT_END_PROMPT in text`. -/
def contains_final_answer (text : String) : Bool :=
  containsStr text COT_END_PROMPT

/-- `_looks_like_tool_json`'s pattern `\x7b\s*"name"\s*:\s*` at one position. -/
def matchesLooksLikeAt (cs : List Char) : Bool :=
  (do
    let r1 ← expectLit ['\x7b'] cs
    let r2 ← expectLit "\"name\"".toList (r1.dropWhile pySpace)
    expectLit [':'] (r2.dropWhile pySpace)).isSome

/-- Does a predicate on positions hold somewhere (model of `re.search`)? -/
def scanAny (p : List Char → Bool) : List Char → Bool
  | [] => p []
  | c :: rest => p (c :: rest) || scanAny p rest

/-- `_looks_like_tool_json` (cot.py lines 425-436). -/
def looks_like_tool_json (text : String) : Bool :=
  scanAny matchesLooksLikeAt text.toList

/-- The justification/split pattern `` `?\x7b\s*"name"\s*:\s*" `` at one
position (cot.py lines 199 and 223). -/
def matchesNameJsonAt (cs : List Char) : Bool :=
  (do
    let cs0 := match expectLit ['\x60'] cs with
      | some r => r
      | none => cs
    let r1 ← expectLit ['\x7b'] cs0
    let r2 ← expectLit "\"name\"".toList (r1.dropWhile pySpace)
    let r3 ← expectLit [':'] (r2.dropWhile pySpace)
    expectLit ['"'] (r3.dropWhile pySpace)).isSome

/-- Index of the first position where the justification/split pattern
matches (`m.start()` of `re.search`). -/
def findNameJsonIdx : List Char → Option Nat
  | [] => none
  | c :: rest =>
    if matchesNameJsonAt (c :: rest) then some 0
    else (findNameJsonIdx rest).map (· + 1)

/-- `re.search(r'`?\x7b\s*"name"\s*:\s*"', text)` start position. -/
def findNameJsonStart (text : String) : Option Nat :=
  findNameJsonIdx text.toList

/-- The justification gate of cot.py lines 197-211:
`m_first and prefix_len < 12 and state.justification_nudges < 3`. -/
def justification_gate (text : String) (st : CoTState) : Bool :=
  match findNameJsonStart text with
  | none => false
  | some i =>
    decide ((pyStrip (strTakeN text i)).length < 12) && decide (st.justification_nudges < 3)

/-- `re.match(r'`?(\x7b.*\x7d)`?$', json_and_after, re.DOTALL)` (cot.py
line 228): greedy capture from the opening brace to the last closing brace
allowed by the optional trailing backtick. -/
def jsonObjMatch (s : String) : Option String :=
  let cs := s.toList
  let cs0 := match expectLit ['\x60'] cs with
    | some r => r
    | none => cs
  match cs0 with
  | '\x7b' :: _ =>
    if cs0.getLast? == some '\x7d' then some (String.mk cs0)
    else if cs0.getLast? == some '\x60' && cs0.dropLast.getLast? == some '\x7d' then
      some (String.mk cs0.dropLast)
    else none
  | _ => none

/-- `_emit_final_answer` (cot.py lines 438-456): the final text is the text
before the first sentinel occurrence, right-stripped; the final message is
appended and counted. -/
def emit_final_answer (agentName text : String) (rs : RunState) : String × RunState :=
  let finalText := pyRstrip (beforeFirst text COT_END_PROMPT)
  let rs1 := appendMsg rs (modelRespMsg agentName finalText) none
  (finalText, { rs1 with finals := rs1.finals + 1 })

/-- `model_name.split(":")[-1]`. -/
def lastColonComponent (s : String) : String :=
  match (s.splitOn ":").getLast? with
  | some x => x
  | none => s

/-- The tool path of `_persist_trace` (cot.py lines 592-605): the
`ChainOfThought:Tool:` responses of the chain. -/
def toolPath (chain : List Msg) : List (String × String) :=
  chain.filterMap (fun m =>
    match m with
    | .response parts mn _ =>
      if startsWithL "ChainOfThought:Tool:".toList mn.toList then
        some (lastColonComponent mn, ((parts.head?).map MsgPart.content).getD "")
      else none
    | _ => none)

/-- `_persist_trace`: record the `add_trace` call. -/
def persist_trace (env : Env) (finalText : String) (rs : RunState) : RunState :=
  { rs with persisted := rs.persisted ++ [⟨env.query, toolPath rs.chain, finalText⟩] }

/-- Note of `_enter_finalize_due_to_duplicate` (cot.py lines 492-500). -/
def dupNote (toolName : String) : String :=
  "Duplicate tool call blocked (" ++ toolName ++ "). Move to final answer with " ++
    COT_END_PROMPT ++ "."

/-- Note of `_nudge_no_tools_in_finalize` (cot.py lines 458-466). -/
def noToolsInFinalizeNote : String :=
  "Do not call tools in finalize mode. Provide final answer ending with " ++
    COT_END_PROMPT ++ "."

/-- Note of `_nudge_need_tool_or_final` (cot.py lines 483-490). -/
def needToolOrFinalNote : String :=
  "No tool JSON detected. Either answer with " ++ COT_END_PROMPT ++
    " or output a single tool JSON."

/-- Justification nudge note (cot.py lines 206-208). -/
def justifyNote : String :=
  "Provide a brief natural language justification (one sentence) before the tool JSON call explaining why the tool is needed, then repeat the tool JSON."

/-- Soft-failure note (cot.py line 262). -/
def noResultNote : String :=
  "Tool returned no result; attempt final answer or different tool."

/-- Post-tool steering note (cot.py lines 579-584). -/
def summaryHintNote : String :=
  "Summarize or proceed. If the above tool output answers the user, provide the final answer ending with " ++
    COT_END_PROMPT ++ ". Otherwise justify the next distinct tool (do not repeat the same one)."

/-- Note of `_enter_finalize_due_to_cap` (cot.py lines 502-510). -/
def capNote : String :=
  "Max tool steps reached. Provide final answer ending with " ++ COT_END_PROMPT ++ "."

/-- Note of the auto-finalize branch (cot.py lines 270-272). -/
def autoFinalizeNote : String :=
  "Tool step complete. Use the tool output above. Provide final answer ending with " ++
    COT_END_PROMPT ++ " or justify ONE new tool if truly needed."

/-- The synthesized summary of `_force_summarized_exit` (cot.py lines
468-481): prefix plus the stripped raw model text truncated to 500
characters. -/
def forcedSummary (text : String) : String :=
  "Final answer unavailable from model after multiple finalize nudges; summarizing best effort: " ++
    strTakeN (pyStrip text) 500

/-- `final_with_sentinel = summary + f" {COT_END_PROMPT}"`. -/
def forcedTextWithSentinel (text : String) : String :=
  forcedSummary text ++ " " ++ COT_END_PROMPT

/-- `_is_duplicate_tool_call` (cot.py lines 536-547). -/
def is_duplicate_tool_call (toolId : String) (st : CoTState) : Bool :=
  st.executed_tool_calls.contains toolId || st.last_tool_id == some toolId

/-- `tool_id.split(":", 1)[1]` (cot.py line 555); a canonical id always
contains a colon, so the `except` fallback is unreachable. -/
def afterFirstColon (s : String) : String :=
  String.mk ((s.toList.dropWhile (fun c => c != ':')).drop 1)

/-- The `minimal_json` string built at cot.py line 556. -/
def minimalJson (toolName canonicalArgs : String) : String :=
  "\x7b\"name\": \"" ++ toolName ++ "\", \"arguments\": " ++ canonicalArgs ++ "\x7d"

/-- `blob.get(key)` on a parsed JSON object (`dictify` already applies
Python dict key semantics). -/
def dictGet (entries : List (String × Json)) (k : String) : Option Json :=
  (entries.find? (fun p => p.1 == k)).map (fun p => p.2)

/-- The `(blob.get("view"), blob.get("response"), tool.name)` triple of
tooling.py line 84, on the string-valued blob fragment of the file
header. -/
def outcomeOfBlob (entries : List (String × Json)) (toolName : String) : ToolOutcome :=
  { view := match dictGet entries "view" with | some (.str s) => some s | _ => none
    response := match dictGet entries "response" with | some (.str s) => s | _ => ""
    toolUsed := toolName }

/-- The `for tool_name, arguments in tool_calls` loop of
`Tooling.execute_tool_from_text` (tooling.py lines 75-84): skip unknown
tools and falsy call results; `json.loads` on the joined result content
raises on malformed data (`blob.get` on a non-dict likewise raises),
aborting the whole call. -/
def execToolLoop (env : Env) :
    List (String × List (String × Json)) → Except String (List ToolOutcome)
  | [] => .ok []
  | (toolName, args) :: rest =>
    if env.listTools.contains toolName then
      match env.callTool toolName args with
      | some content =>
        match json_loads content with
        | none => .error ("JSONDecodeError: " ++ content)
        | some (.obj entries) =>
          match execToolLoop env rest with
          | .error e => .error e
          | .ok tl => .ok (outcomeOfBlob entries toolName :: tl)
        | some _ => .error ("AttributeError: " ++ content)
      | none => execToolLoop env rest
    else execToolLoop env rest

/-- `Tooling.execute_tool_from_text` (tooling.py lines 66-86): re-detect
tool calls in the given text — `detect_tool_calls`' `json.loads` error
propagates — then run each call. -/
def execute_tool_from_text (env : Env) (text : String) : Except String (List ToolOutcome) :=
  match detect_tool_calls text with
  | .error e => .error e
  | .ok calls => execToolLoop env calls

/-- `_execute_tool` (cot.py lines 549-588): rebuild the minimal JSON from
the canonical id and hand it to `Tooling.execute_tool_from_text`; an error
raised there propagates (the `await` at line 562 precedes the marking).
When it returns, mark the canonical id as executed and as `last_tool_id`
in every case, and report whether any outcome was produced; outcomes are
appended as tool messages (carrying their `view`) followed by the steering
note. -/
def execute_tool (env : Env) (toolName toolId : String) (st : CoTState) (rs : RunState) :
    Except String (Bool × CoTState × RunState) :=
  let canonicalArgs := afterFirstColon toolId
  match execute_tool_from_text env (minimalJson toolName canonicalArgs) with
  | .error e => .error e
  | .ok outcomes =>
    let st' := { st with
      executed_tool_calls := st.executed_tool_calls.insert toolId
      last_tool_id := some toolId }
    let rs0 := { rs with execLog := rs.execLog ++ [toolId] }
    match outcomes with
    | [] => .ok (false, st', rs0)
    | _ =>
      let rs1 := outcomes.foldl (fun r o => appendMsg r (toolRespMsg o.toolUsed o.response) o.view) rs0
      .ok (true, st', append_model_note env.agentName rs1 summaryHintNote)

/-- `next((m for m in reversed(self.sandbox.messages) if isinstance(m,
ModelResponse)), None)` plus `parts[0].content` (cot.py lines 234-235). -/
def lastModelResponseContent (msgs : List Msg) : Option String :=
  match msgs.reverse.find? (fun m => match m with | .response _ _ _ => true | _ => false) with
  | some (.response parts _ _) => (parts.head?).map MsgPart.content
  | _ => none

/-- The explanation/JSON split block (cot.py lines 218-257): split the text
at the tool-JSON start, append the explanatory prefix if substantive and
not a repeat of the last model response, then the isolated JSON block if
not a repeat. -/
def splitAppendReasoning (agentName text : String) (rs : RunState) : RunState :=
  match findNameJsonStart text with
  | some i =>
    let pfx := stripNlSpace (strTakeN text i)
    let jsonAndAfter := pyStrip (strDropN text i)
    let jsonBlock := match jsonObjMatch jsonAndAfter with
      | some b => b
      | none => jsonAndAfter
    let rs1 :=
      if pfx ≠ "" ∧ pfx.length > 8 then
        if some pfx ≠ lastModelResponseContent rs.sandbox.messages then
          append_model_text agentName rs pfx
        else rs
      else rs
    if jsonBlock ≠ "" ∧ some jsonBlock ≠ lastModelResponseContent rs1.sandbox.messages then
      append_model_text agentName rs1 jsonBlock
    else rs1
  | none =>
    let cleaned := pyStrip text
    if cleaned ≠ "" ∧ some cleaned ≠ lastModelResponseContent rs.sandbox.messages then
      append_model_text agentName rs cleaned
    else rs

/-- Outcome of a run: the sentinel/forced success; the
`RuntimeError("Exceeded max iterations...")` of `_dump_history_and_raise`;
the `json.loads` error escaping from the loop-top `detect_tool_calls`
(cot.py line 188 has no handler); or an error escaping from
`Tooling.execute_tool_from_text` inside `_execute_tool` (cot.py line 562
has no handler either — re-detection of the re-serialized minimal JSON or
the result-blob parse can raise). -/
inductive RunOutcome where
  | success (finalText : String) : RunOutcome
  | maxItersError : RunOutcome
  | detectError (e : String) : RunOutcome
  | execError (e : String) : RunOutcome
deriving DecidableEq, Repr

/-- Result of one loop iteration. -/
inductive StepRes where
  | cont (st : CoTState) (rs : RunState) : StepRes
  | done (out : RunOutcome) (rs : RunState) : StepRes

/-- One iteration of the `run_cot` loop body (cot.py lines 164-276), on the
accumulated model text of this iteration. The Python locals (`st1`, `rs1`,
`tool_id`, `st2`, the emitted pair) are inlined; each occurrence denotes
the same value as the corresponding local. -/
def cotIter (env : Env) (cfg : CoTConfig) (text : String) (st : CoTState) (rs : RunState) :
    StepRes :=
  if contains_final_answer text then
    .done (.success (emit_final_answer env.agentName text rs).1)
      (persist_trace env (emit_final_answer env.agentName text rs).1
        (emit_final_answer env.agentName text rs).2)
  else if st.mode = Mode.FINALIZING then
    if looks_like_tool_json text then
      if st.finalize_nudges + 1 > cfg.max_finalize_nudges then
        .done (.success (emit_final_answer env.agentName (forcedTextWithSentinel text)
            (append_model_note env.agentName rs noToolsInFinalizeNote)).1)
          (persist_trace env
            (emit_final_answer env.agentName (forcedTextWithSentinel text)
              (append_model_note env.agentName rs noToolsInFinalizeNote)).1
            (emit_final_answer env.agentName (forcedTextWithSentinel text)
              (append_model_note env.agentName rs noToolsInFinalizeNote)).2)
      else
        .cont { st with finalize_nudges := st.finalize_nudges + 1 }
          (append_model_note env.agentName rs noToolsInFinalizeNote)
    else .cont st (append_model_text env.agentName rs text)
  else
    match detect_tool_calls text with
    | .error e => .done (.detectError e) rs
    | .ok [] => .cont st (append_model_note env.agentName rs needToolOrFinalNote)
    | .ok ((toolName, args) :: _) =>
      if justification_gate text st then
        .cont { st with justification_nudges := st.justification_nudges + 1 }
          (append_model_note env.agentName rs justifyNote)
      else if is_duplicate_tool_call (canonical_tool_id toolName args) st then
        .cont { st with mode := Mode.FINALIZING }
          (append_model_note env.agentName rs (dupNote toolName))
      else
        match execute_tool env toolName (canonical_tool_id toolName args) st
            (splitAppendReasoning env.agentName text rs) with
        | .error e => .done (.execError e) (splitAppendReasoning env.agentName text rs)
        | .ok (false, st1, rs2) =>
          .cont st1 (append_model_note env.agentName rs2 noResultNote)
        | .ok (true, st1, rs2) =>
          if cfg.auto_finalize_after_tool then
            .cont { st1 with tools_run := st1.tools_run + 1, mode := Mode.FINALIZING }
              (append_model_note env.agentName rs2 autoFinalizeNote)
          else if st1.tools_run + 1 ≥ cfg.max_tool_steps then
            .cont { st1 with tools_run := st1.tools_run + 1, mode := Mode.FINALIZING }
              (append_model_note env.agentName rs2 capNote)
          else .cont { st1 with tools_run := st1.tools_run + 1 } rs2

/-- The `for state.iteration in range(max_iters)` loop; exhausting the
range reaches `_dump_history_and_raise`. Returns the outcome, the final
run context, and the number of iterations consumed. -/
def runAux (env : Env) (cfg : CoTConfig) :
    Nat → Nat → CoTState → RunState → RunOutcome × RunState × Nat
  | 0, iter, _, rs => (.maxItersError, rs, iter)
  | fuel + 1, iter, st, rs =>
    match cotIter env cfg (env.outputs iter) { st with iteration := iter } rs with
    | .done out rs' => (out, rs', iter + 1)
    | .cont st' rs' => runAux env cfg fuel (iter + 1) st' rs'

/-- The run context at entry of `run_cot`. -/
def initialRunState (env : Env) : RunState :=
  { chain := env.chain0, sandbox := env.sandbox0, execLog := [], persisted := [], finals := 0 }

/-- `ChainOfThought.run_cot` (cot.py lines 125-279). -/
def run_cot (env : Env) (cfg : CoTConfig) : RunOutcome × RunState × Nat :=
  runAux env cfg cfg.max_iters 0 initialCoTState (initialRunState env)

/-! ## Bookkeeping lemmas for one iteration -/

theorem appendMsg_execLog (rs : RunState) (m : Msg) (v : Option String) :
    (appendMsg rs m v).execLog = rs.execLog := rfl

theorem appendMsg_finals (rs : RunState) (m : Msg) (v : Option String) :
    (appendMsg rs m v).finals = rs.finals := rfl

theorem foldl_appendMsg_execLog (l : List ToolOutcome) (rs0 : RunState) :
    (l.foldl (fun r o => appendMsg r (toolRespMsg o.toolUsed o.response) o.view) rs0).execLog
      = rs0.execLog := by
  induction l generalizing rs0 with
  | nil => rfl
  | cons o rest ih => simpa using ih (appendMsg rs0 (toolRespMsg o.toolUsed o.response) o.view)

theorem foldl_appendMsg_finals (l : List ToolOutcome) (rs0 : RunState) :
    (l.foldl (fun r o => appendMsg r (toolRespMsg o.toolUsed o.response) o.view) rs0).finals
      = rs0.finals := by
  induction l generalizing rs0 with
  | nil => rfl
  | cons o rest ih => simpa using ih (appendMsg rs0 (toolRespMsg o.toolUsed o.response) o.view)

theorem splitAppendReasoning_execLog (a text : String) (rs : RunState) :
    (splitAppendReasoning a text rs).execLog = rs.execLog := by
  unfold splitAppendReasoning
  split <;> dsimp only <;> split_ifs <;> simp [append_model_text, appendMsg]

theorem splitAppendReasoning_finals (a text : String) (rs : RunState) :
    (splitAppendReasoning a text rs).finals = rs.finals := by
  unfold splitAppendReasoning
  split <;> dsimp only <;> split_ifs <;> simp [append_model_text, appendMsg]

theorem execute_tool_spec (env : Env) (n tid : String) (st : CoTState) (rs : RunState)
    {b : Bool} {st1 : CoTState} {rs1 : RunState}
    (h : execute_tool env n tid st rs = .ok (b, st1, rs1)) :
    st1.executed_tool_calls = st.executed_tool_calls.insert tid
    ∧ st1.last_tool_id = some tid
    ∧ st1.tools_run = st.tools_run
    ∧ st1.mode = st.mode
    ∧ st1.justification_nudges = st.justification_nudges
    ∧ rs1.execLog = rs.execLog ++ [tid]
    ∧ rs1.finals = rs.finals := by
  unfold execute_tool at h
  dsimp only at h
  cases hx : execute_tool_from_text env (minimalJson n (afterFirstColon tid)) with
  | error e =>
    rw [hx] at h
    exact Except.noConfusion h
  | ok outcomes =>
    rw [hx] at h
    cases outcomes with
    | nil =>
      dsimp only at h
      cases h
      exact ⟨rfl, rfl, rfl, rfl, rfl, rfl, rfl⟩
    | cons o tl =>
      dsimp only at h
      cases h
      refine ⟨rfl, rfl, rfl, rfl, rfl, ?_, ?_⟩
      · exact foldl_appendMsg_execLog (o :: tl) { rs with execLog := rs.execLog ++ [tid] }
      · exact foldl_appendMsg_finals (o :: tl) { rs with execLog := rs.execLog ++ [tid] }

theorem execute_tool_fail (env : Env) (n tid : String) (st : CoTState) (rs : RunState)
    (h : execute_tool_from_text env (minimalJson n (afterFirstColon tid)) = .ok []) :
    execute_tool env n tid st rs =
      .ok (false,
       { st with executed_tool_calls := st.executed_tool_calls.insert tid,
                 last_tool_id := some tid },
       { rs with execLog := rs.execLog ++ [tid] }) := by
  unfold execute_tool
  dsimp only
  rw [h]

set_option maxRecDepth 4096 in
/-- Success results of one iteration count exactly one final answer. -/
theorem cotIter_success_finals {env : Env} {cfg : CoTConfig} {text : String}
    {st : CoTState} {rs : RunState} {t : String} {rs' : RunState}
    (h : cotIter env cfg text st rs = .done (.success t) rs') :
    rs'.finals = rs.finals + 1 ∧ rs'.execLog = rs.execLog := by
  unfold cotIter at h
  repeat' split at h
  all_goals cases h
  all_goals exact ⟨rfl, rfl⟩

/-- A detector error leaves the run context untouched. -/
theorem cotIter_detectError_rs {env : Env} {cfg : CoTConfig} {text : String}
    {st : CoTState} {rs : RunState} {e : String} {rs' : RunState}
    (h : cotIter env cfg text st rs = .done (.detectError e) rs') :
    rs' = rs := by
  unfold cotIter at h
  repeat' split at h
  all_goals cases h
  all_goals rfl

set_option maxRecDepth 4096 in
/-- An error escaping `_execute_tool` leaves the observation channels of
the run context untouched (only the split-block appends of cot.py lines
218-257 happened before the raise). -/
theorem cotIter_execError_spec {env : Env} {cfg : CoTConfig} {text : String}
    {st : CoTState} {rs : RunState} {e : String} {rs' : RunState}
    (h : cotIter env cfg text st rs = .done (.execError e) rs') :
    rs'.finals = rs.finals ∧ rs'.execLog = rs.execLog := by
  unfold cotIter at h
  repeat' split at h
  all_goals cases h
  all_goals exact ⟨splitAppendReasoning_finals _ _ _, splitAppendReasoning_execLog _ _ _⟩

/-- One iteration never produces the max-iterations outcome; only the
exhausted loop does. -/
theorem cotIter_no_maxIters {env : Env} {cfg : CoTConfig} {text : String}
    {st : CoTState} {rs : RunState} {rs' : RunState}
    (h : cotIter env cfg text st rs = .done .maxItersError rs') : False := by
  unfold cotIter at h
  repeat' split at h
  all_goals cases h

/-- Continuing iterations emit no final answer, and either do not execute a
tool or execute exactly one non-duplicate canonical id, marking it
executed. -/
theorem cotIter_cont_spec {env : Env} {cfg : CoTConfig} {text : String}
    {st : CoTState} {rs : RunState} {st' : CoTState} {rs' : RunState}
    (h : cotIter env cfg text st rs = .cont st' rs') :
    rs'.finals = rs.finals ∧
    ((rs'.execLog = rs.execLog ∧ st'.executed_tool_calls = st.executed_tool_calls)
      ∨ (∃ tid, is_duplicate_tool_call tid st = false
           ∧ rs'.execLog = rs.execLog ++ [tid]
           ∧ st'.executed_tool_calls = st.executed_tool_calls.insert tid)) := by
  unfold cotIter at h
  cases c1 : contains_final_answer text with
  | true => rw [if_pos c1] at h; exact StepRes.noConfusion h
  | false =>
  rw [if_neg (by simp [c1])] at h
  by_cases c2 : st.mode = Mode.FINALIZING
  · rw [if_pos c2] at h
    cases c3 : looks_like_tool_json text with
    | true =>
      rw [if_pos c3] at h
      by_cases c4 : st.finalize_nudges + 1 > cfg.max_finalize_nudges
      · rw [if_pos c4] at h; exact StepRes.noConfusion h
      · rw [if_neg c4] at h
        cases h
        exact ⟨rfl, Or.inl ⟨rfl, rfl⟩⟩
    | false =>
      rw [if_neg (by simp [c3])] at h
      cases h
      exact ⟨rfl, Or.inl ⟨rfl, rfl⟩⟩
  · rw [if_neg c2] at h
    cases hd : detect_tool_calls text with
    | error e => rw [hd] at h; exact StepRes.noConfusion h
    | ok l =>
      rw [hd] at h
      cases l with
      | nil =>
        dsimp only at h
        cases h
        exact ⟨rfl, Or.inl ⟨rfl, rfl⟩⟩
      | cons pair rest =>
        obtain ⟨toolName, args⟩ := pair
        dsimp only at h
        cases c5 : justification_gate text st with
        | true =>
          rw [if_pos c5] at h
          cases h
          exact ⟨rfl, Or.inl ⟨rfl, rfl⟩⟩
        | false =>
        rw [if_neg (by simp [c5])] at h
        cases c6 : is_duplicate_tool_call (canonical_tool_id toolName args) st with
        | true =>
          rw [if_pos c6] at h
          cases h
          exact ⟨rfl, Or.inl ⟨rfl, rfl⟩⟩
        | false =>
        rw [if_neg (by simp [c6])] at h
        cases hex : execute_tool env toolName (canonical_tool_id toolName args) st
            (splitAppendReasoning env.agentName text rs) with
        | error e =>
          rw [hex] at h
          exact StepRes.noConfusion h
        | ok triple =>
        obtain ⟨ok, st1, rs2⟩ := triple
        rw [hex] at h
        obtain ⟨he1, _he2, _he3, _he4, _he5, he6, he7⟩ :=
          execute_tool_spec env toolName (canonical_tool_id toolName args) st
            (splitAppendReasoning env.agentName text rs) hex
        have hrsE := splitAppendReasoning_execLog env.agentName text rs
        have hrsF := splitAppendReasoning_finals env.agentName text rs
        cases ok with
        | false =>
          dsimp only at h
          cases h
          refine ⟨?_, Or.inr ⟨canonical_tool_id toolName args, c6, ?_, he1⟩⟩
          · show rs2.finals = rs.finals
            rw [he7, hrsF]
          · show rs2.execLog = rs.execLog ++ [canonical_tool_id toolName args]
            rw [he6, hrsE]
        | true =>
          dsimp only at h
          have hfin : rs2.finals = rs.finals := by rw [he7, hrsF]
          have hlog : rs2.execLog = rs.execLog ++ [canonical_tool_id toolName args] := by
            rw [he6, hrsE]
          by_cases c7 : cfg.auto_finalize_after_tool = true
          · rw [if_pos c7] at h
            cases h
            exact ⟨hfin, Or.inr ⟨canonical_tool_id toolName args, c6, hlog, he1⟩⟩
          · rw [if_neg c7] at h
            by_cases c8 : st1.tools_run + 1 ≥ cfg.max_tool_steps
            · rw [if_pos c8] at h
              cases h
              exact ⟨hfin, Or.inr ⟨canonical_tool_id toolName args, c6, hlog, he1⟩⟩
            · rw [if_neg c8] at h
              cases h
              exact ⟨hfin, Or.inr ⟨canonical_tool_id toolName args, c6, hlog, he1⟩⟩

/-! ## Run-level lemmas -/

theorem runAux_iters_le (env : Env) (cfg : CoTConfig) :
    ∀ fuel iter st rs, (runAux env cfg fuel iter st rs).2.2 ≤ iter + fuel := by
  intro fuel
  induction fuel with
  | zero => intro iter st rs; simp [runAux]
  | succ f ih =>
    intro iter st rs
    simp only [runAux]
    cases hstep : cotIter env cfg (env.outputs iter) { st with iteration := iter } rs with
    | done out rs' =>
      dsimp only
      omega
    | cont st' rs' =>
      dsimp only
      have := ih (iter + 1) st' rs'
      omega

theorem runAux_maxIters_iters (env : Env) (cfg : CoTConfig) :
    ∀ fuel iter st rs, (runAux env cfg fuel iter st rs).1 = .maxItersError →
      (runAux env cfg fuel iter st rs).2.2 = iter + fuel := by
  intro fuel
  induction fuel with
  | zero => intro iter st rs _; simp [runAux]
  | succ f ih =>
    intro iter st rs h
    simp only [runAux] at h ⊢
    cases hstep : cotIter env cfg (env.outputs iter) { st with iteration := iter } rs with
    | done out rs' =>
      rw [hstep] at h
      dsimp only at h
      cases out with
      | success t => exact RunOutcome.noConfusion h
      | maxItersError => exact (cotIter_no_maxIters hstep).elim
      | detectError e => exact RunOutcome.noConfusion h
      | execError e => exact RunOutcome.noConfusion h
    | cont st' rs' =>
      rw [hstep] at h
      dsimp only at h ⊢
      rw [ih (iter + 1) st' rs' h]
      omega

theorem runAux_finals (env : Env) (cfg : CoTConfig) :
    ∀ fuel iter st rs,
      ((∃ t, (runAux env cfg fuel iter st rs).1 = .success t) →
        (runAux env cfg fuel iter st rs).2.1.finals = rs.finals + 1)
      ∧ ((∀ t, (runAux env cfg fuel iter st rs).1 ≠ .success t) →
        (runAux env cfg fuel iter st rs).2.1.finals = rs.finals) := by
  intro fuel
  induction fuel with
  | zero =>
    intro iter st rs
    constructor
    · rintro ⟨t, ht⟩
      exact absurd ht (by simp [runAux])
    · intro _
      simp [runAux]
  | succ f ih =>
    intro iter st rs
    simp only [runAux]
    cases hstep : cotIter env cfg (env.outputs iter) { st with iteration := iter } rs with
    | done out rs' =>
      dsimp only
      cases out with
      | success t =>
        exact ⟨fun _ => (cotIter_success_finals hstep).1, fun hno => absurd rfl (hno t)⟩
      | maxItersError => exact (cotIter_no_maxIters hstep).elim
      | detectError e =>
        refine ⟨fun hex => ?_, fun _ => by rw [cotIter_detectError_rs hstep]⟩
        obtain ⟨t, ht⟩ := hex
        exact RunOutcome.noConfusion ht
      | execError e =>
        refine ⟨fun hex => ?_, fun _ => (cotIter_execError_spec hstep).1⟩
        obtain ⟨t, ht⟩ := hex
        exact RunOutcome.noConfusion ht
    | cont st' rs' =>
      dsimp only
      have hfin := (cotIter_cont_spec hstep).1
      have hih := ih (iter + 1) st' rs'
      exact ⟨fun hex => by rw [hih.1 hex, hfin], fun hno => by rw [hih.2 hno, hfin]⟩

theorem runAux_execLog (env : Env) (cfg : CoTConfig) :
    ∀ fuel iter st rs,
      ∃ ext, (runAux env cfg fuel iter st rs).2.1.execLog = rs.execLog ++ ext
        ∧ ext.Nodup
        ∧ ∀ tid ∈ st.executed_tool_calls, tid ∉ ext := by
  intro fuel
  induction fuel with
  | zero =>
    intro iter st rs
    exact ⟨[], by simp [runAux], List.nodup_nil, by simp⟩
  | succ f ih =>
    intro iter st rs
    simp only [runAux]
    cases hstep : cotIter env cfg (env.outputs iter) { st with iteration := iter } rs with
    | done out rs' =>
      dsimp only
      cases out with
      | success t =>
        exact ⟨[], by simp [(cotIter_success_finals hstep).2], List.nodup_nil, by simp⟩
      | maxItersError => exact (cotIter_no_maxIters hstep).elim
      | detectError e =>
        exact ⟨[], by simp [cotIter_detectError_rs hstep], List.nodup_nil, by simp⟩
      | execError e =>
        exact ⟨[], by simp [(cotIter_execError_spec hstep).2], List.nodup_nil, by simp⟩
    | cont st' rs' =>
      dsimp only
      rcases cotIter_cont_spec hstep with ⟨_, hcase⟩
      rcases hcase with ⟨hlog, hexe⟩ | ⟨tid, hdup, hlog, hexe⟩
      · obtain ⟨ext, h1, h2, h3⟩ := ih (iter + 1) st' rs'
        refine ⟨ext, by rw [h1, hlog], h2, ?_⟩
        intro t ht
        exact h3 t (by rw [hexe]; exact ht)
      · obtain ⟨ext, h1, h2, h3⟩ := ih (iter + 1) st' rs'
        have htid_not : tid ∉ st.executed_tool_calls := by
          simp [is_duplicate_tool_call] at hdup
          exact hdup.1
        have htid_ext : tid ∉ ext := by
          apply h3
          rw [hexe]
          exact List.mem_insert_self tid _
        refine ⟨tid :: ext, ?_, List.nodup_cons.mpr ⟨htid_ext, h2⟩, ?_⟩
        · rw [h1, hlog]
          simp
        · intro t ht hmem
          rcases List.mem_cons.mp hmem with h | h
          · exact htid_not (h ▸ ht)
          · exact h3 t (by rw [hexe]; exact List.mem_insert_of_mem ht) h

/-! ## Claim C5: detector error behaviour -/

theorem detectLoop_error_of_malformed :
    ∀ l : List (String × String), l.any (fun m => (argObjParse m.2).isNone) = true →
      ∃ e, detectLoop l = .error e := by
  intro l
  induction l with
  | nil => intro h; simp at h
  | cons m rest ih =>
    intro h
    unfold detectLoop
    cases hp : argObjParse m.2 with
    | none => exact ⟨"JSONDecodeError: " ++ m.2, rfl⟩
    | some kvs =>
      simp only [List.any_cons, hp, Option.isSome_some, Bool.or_eq_true] at h
      rcases h with h | h
      · simp [hp] at h
      · obtain ⟨e, he⟩ := ih h
        rw [he]
        exact ⟨e, rfl⟩

/-- C5 (amended): for every input text, the detector returns an empty list
(not an error) when no `TOOL_PATTERN` match is found; but when some matched
pattern's argument object is malformed, the detector raises the JSON
decoding error instead of skipping that match. -/
theorem detect_tool_calls_amended :
    (∀ text, findToolMatches text = [] → detect_tool_calls text = .ok [])
    ∧ (∀ text, (findToolMatches text).any (fun m => (argObjParse m.2).isNone) = true →
        ∃ e, detect_tool_calls text = .error e) := by
  constructor
  · intro text h
    unfold detect_tool_calls
    rw [h]
    rfl
  · intro text h
    exact detectLoop_error_of_malformed (findToolMatches text) h

/-- The model text `\x7b"name": "t", "arguments": \x7bbad\x7d \x7d`:
`TOOL_PATTERN` matches with argument blob `\x7bbad\x7d`. -/
def malformedArgsText : String := "\x7b\"name\": \"t\", \"arguments\": \x7bbad\x7d \x7d"

/-- C5 (counterexample): on `malformedArgsText` the pattern matches and the
malformed argument object makes the detector raise rather than skip the
match — the claim's "that match is skipped rather than causing the
detector to fail" is false on the code. -/
theorem detect_tool_calls_counterexample :
    findToolMatches malformedArgsText = [("t", "\x7bbad\x7d")]
    ∧ detect_tool_calls malformedArgsText = .error "JSONDecodeError: \x7bbad\x7d" :=
  ⟨rfl, rfl⟩

/-- Witness for the amended C5 at concrete inputs. -/
theorem detect_tool_calls_amended_witness :
    detect_tool_calls "no tools here" = .ok []
    ∧ ∃ e, detect_tool_calls malformedArgsText = .error e :=
  ⟨detect_tool_calls_amended.1 "no tools here" rfl,
   detect_tool_calls_amended.2 malformedArgsText rfl⟩

/-! ## Claim C7: finalize nudges and the forced summarized exit -/

/-- C7: in `FINALIZING` mode, model output that still looks like a tool
call increments the finalize-nudge counter (emitting the nudge note), and
once the counter exceeds `max_finalize_nudges` the controller emits a
synthesized best-effort final answer built from the raw model text
truncated to at most 500 characters, terminating the run successfully. -/
theorem finalize_nudge_forced_exit (env : Env) (cfg : CoTConfig) (text : String)
    (st : CoTState) (rs : RunState)
    (hmode : st.mode = Mode.FINALIZING)
    (hsent : contains_final_answer text = false)
    (htool : looks_like_tool_json text = true) :
    (st.finalize_nudges + 1 ≤ cfg.max_finalize_nudges →
      cotIter env cfg text st rs =
        .cont { st with finalize_nudges := st.finalize_nudges + 1 }
          (append_model_note env.agentName rs noToolsInFinalizeNote))
    ∧ (st.finalize_nudges + 1 > cfg.max_finalize_nudges →
      ∃ rs', cotIter env cfg text st rs =
          .done (.success (pyRstrip (beforeFirst (forcedTextWithSentinel text) COT_END_PROMPT))) rs'
        ∧ rs'.finals = rs.finals + 1
        ∧ (strTakeN (pyStrip text) 500).length ≤ 500) := by
  constructor
  · intro hle
    unfold cotIter
    rw [if_neg (by simp [hsent]), if_pos hmode, if_pos htool, if_neg (by omega)]
  · intro hgt
    unfold cotIter
    rw [if_neg (by simp [hsent]), if_pos hmode, if_pos htool, if_pos hgt]
    refine ⟨_, rfl, rfl, ?_⟩
    have h : (strTakeN (pyStrip text) 500).length = ((pyStrip text).toList.take 500).length := rfl
    rw [h, List.length_take]
    omega

/-- A text that still looks like a tool call, with no sentinel. -/
def toolishText : String := "\x7b\"name\": \"t\", \"arguments\": \x7b\x7d\x7d"

/-- An environment for concrete witnesses (the spec's `list_nodes`
scenario). -/
def scenarioEnv : Env :=
  { query := "list all companies", agentName := "m"
    outputs := fun i =>
      if i = 0 then
        "Because this tool is clearly needed here. `\x7b\"name\": \"list_nodes\", \"arguments\": \x7b\x7d\x7d`"
      else "All companies listed. [END OF REASONING]"
    listTools := ["list_nodes"]
    callTool := fun _ _ => some "\x7b\"view\": \"table\", \"response\": \"rows\"\x7d"
    sandbox0 := ⟨some "list all companies", [], none⟩
    chain0 := [] }

/-- Witness for C7 at a concrete state past the nudge budget. -/
theorem finalize_nudge_forced_exit_witness :
    ∃ rs', cotIter scenarioEnv defaultCoTConfig toolishText
        { initialCoTState with mode := Mode.FINALIZING, finalize_nudges := 2 }
        (initialRunState scenarioEnv)
      = .done (.success (pyRstrip (beforeFirst (forcedTextWithSentinel toolishText) COT_END_PROMPT))) rs'
      ∧ rs'.finals = (initialRunState scenarioEnv).finals + 1
      ∧ (strTakeN (pyStrip toolishText) 500).length ≤ 500 :=
  (finalize_nudge_forced_exit scenarioEnv defaultCoTConfig toolishText
    { initialCoTState with mode := Mode.FINALIZING, finalize_nudges := 2 }
    (initialRunState scenarioEnv) rfl rfl rfl).2 (by decide)

/-! ## Claim C2: duplicate tool calls force FINALIZING and are never
executed again -/

/-- C2: whenever the controller's duplicate check fires on the first
detected tool call (its canonical id is already in `executed_tool_calls`
or equals `last_tool_id`), the iteration transitions to `FINALIZING` and
emits the note forbidding further tools, executing nothing; and globally,
a run never executes a canonical id that is already marked executed, and
never executes the same canonical id twice (the execution log extension is
duplicate-free). -/
theorem duplicate_tool_call_forces_finalizing :
    (∀ env cfg text st rs toolName args rest,
      st.mode = Mode.INTERACTIVE →
      contains_final_answer text = false →
      detect_tool_calls text = .ok ((toolName, args) :: rest) →
      justification_gate text st = false →
      is_duplicate_tool_call (canonical_tool_id toolName args) st = true →
      cotIter env cfg text st rs =
        .cont { st with mode := Mode.FINALIZING }
          (append_model_note env.agentName rs (dupNote toolName)))
    ∧ (∀ env cfg fuel iter st rs,
        ∃ ext, (runAux env cfg fuel iter st rs).2.1.execLog = rs.execLog ++ ext
          ∧ ext.Nodup ∧ ∀ tid ∈ st.executed_tool_calls, tid ∉ ext) := by
  constructor
  · intro env cfg text st rs toolName args rest hmode hsent hdet hgate hdup
    unfold cotIter
    rw [if_neg (by simp [hsent]), if_neg (by simp [hmode]), hdet]
    dsimp only
    rw [if_neg (by simp [hgate]), if_pos hdup]
  · intro env cfg fuel iter st rs
    exact runAux_execLog env cfg fuel iter st rs

/-- A detected call with a substantive justification ahead of it. -/
def dupCallText : String :=
  "Because we must check this again. `\x7b\"name\": \"t\", \"arguments\": \x7b\x7d\x7d`"

/-- Witness for C2 at a concrete state that already executed `t:\x7b\x7d`. -/
theorem duplicate_tool_call_forces_finalizing_witness :
    cotIter scenarioEnv defaultCoTConfig dupCallText
      { initialCoTState with executed_tool_calls := ["t:\x7b\x7d"] }
      (initialRunState scenarioEnv)
    = .cont { { initialCoTState with executed_tool_calls := ["t:\x7b\x7d"] } with
              mode := Mode.FINALIZING }
        (append_model_note scenarioEnv.agentName (initialRunState scenarioEnv) (dupNote "t")) :=
  duplicate_tool_call_forces_finalizing.1 scenarioEnv defaultCoTConfig dupCallText
    { initialCoTState with executed_tool_calls := ["t:\x7b\x7d"] }
    (initialRunState scenarioEnv) "t" [] [] rfl rfl (by rfl) (by rfl) (by rfl)

/-! ## Claim C10: a zero-outcome execution still marks the id executed -/

theorem justification_gate_nudges (text : String) (st st' : CoTState)
    (h : st.justification_nudges = st'.justification_nudges) :
    justification_gate text st = justification_gate text st' := by
  unfold justification_gate
  cases findNameJsonStart text <;> simp [h]

/-- C10: a tool execution that yields zero outcomes (a soft failure, not
counted in `tools_run`) still records the canonical id in
`executed_tool_calls` and as `last_tool_id`, so an immediate retry of the
exact same call is classified as a duplicate and forces the transition to
`FINALIZING`. -/
theorem failed_tool_still_marked_executed (env : Env) (cfg : CoTConfig) (text : String)
    (st : CoTState) (rs : RunState) (toolName : String) (args : List (String × Json))
    (rest : List (String × List (String × Json)))
    (hmode : st.mode = Mode.INTERACTIVE)
    (hsent : contains_final_answer text = false)
    (hdet : detect_tool_calls text = .ok ((toolName, args) :: rest))
    (hgate : justification_gate text st = false)
    (hdup : is_duplicate_tool_call (canonical_tool_id toolName args) st = false)
    (hfail : execute_tool_from_text env
        (minimalJson toolName (afterFirstColon (canonical_tool_id toolName args))) = .ok []) :
    ∃ st' rs',
      cotIter env cfg text st rs = .cont st' rs'
      ∧ st'.executed_tool_calls
          = st.executed_tool_calls.insert (canonical_tool_id toolName args)
      ∧ st'.last_tool_id = some (canonical_tool_id toolName args)
      ∧ st'.tools_run = st.tools_run
      ∧ st'.mode = Mode.INTERACTIVE
      ∧ rs'.execLog = rs.execLog ++ [canonical_tool_id toolName args]
      ∧ is_duplicate_tool_call (canonical_tool_id toolName args) st' = true
      ∧ ∀ rs₂, cotIter env cfg text st' rs₂ =
          .cont { st' with mode := Mode.FINALIZING }
            (append_model_note env.agentName rs₂ (dupNote toolName)) := by
  have hexec := execute_tool_fail env toolName (canonical_tool_id toolName args) st
    (splitAppendReasoning env.agentName text rs) hfail
  refine ⟨{ st with
      executed_tool_calls := st.executed_tool_calls.insert (canonical_tool_id toolName args)
      last_tool_id := some (canonical_tool_id toolName args) },
    append_model_note env.agentName
      { splitAppendReasoning env.agentName text rs with
        execLog := (splitAppendReasoning env.agentName text rs).execLog
          ++ [canonical_tool_id toolName args] } noResultNote,
    ?_, rfl, rfl, rfl, hmode, ?_, ?_, ?_⟩
  · unfold cotIter
    rw [if_neg (by simp [hsent]), if_neg (by simp [hmode]), hdet]
    dsimp only
    rw [if_neg (by simp [hgate]), if_neg (by simp [hdup]), hexec]
  · have h1 : (append_model_note env.agentName
        { splitAppendReasoning env.agentName text rs with
          execLog := (splitAppendReasoning env.agentName text rs).execLog
            ++ [canonical_tool_id toolName args] } noResultNote).execLog
        = (splitAppendReasoning env.agentName text rs).execLog
            ++ [canonical_tool_id toolName args] := rfl
    rw [h1, splitAppendReasoning_execLog]
  · have hmem : (st.executed_tool_calls.insert (canonical_tool_id toolName args)).contains
        (canonical_tool_id toolName args) = true :=
      List.elem_eq_true_of_mem (List.mem_insert_self _ _)
    simp [is_duplicate_tool_call, hmem]
  · intro rs₂
    unfold cotIter
    rw [if_neg (by simp [hsent]), if_neg (by simp [hmode]), hdet]
    dsimp only
    have hgate' : justification_gate text
        { st with
          executed_tool_calls := st.executed_tool_calls.insert (canonical_tool_id toolName args)
          last_tool_id := some (canonical_tool_id toolName args) } = false := by
      rw [justification_gate_nudges text
        { st with
          executed_tool_calls := st.executed_tool_calls.insert (canonical_tool_id toolName args)
          last_tool_id := some (canonical_tool_id toolName args) } st rfl]
      exact hgate
    rw [if_neg (by simp [hgate'])]
    have hdup' : is_duplicate_tool_call (canonical_tool_id toolName args)
        { st with
          executed_tool_calls := st.executed_tool_calls.insert (canonical_tool_id toolName args)
          last_tool_id := some (canonical_tool_id toolName args) } = true := by
      have hmem : (st.executed_tool_calls.insert (canonical_tool_id toolName args)).contains
          (canonical_tool_id toolName args) = true :=
        List.elem_eq_true_of_mem (List.mem_insert_self _ _)
      simp [is_duplicate_tool_call, hmem]
    rw [if_pos hdup']

/-- Witness for C10: a zero-outcome execution of `t:\x7b\x7d` marks it
executed and an immediate retry is blocked into `FINALIZING`. -/
def failEnv : Env :=
  { query := "q", agentName := "m", outputs := fun _ => dupCallText
    listTools := [], callTool := fun _ _ => none
    sandbox0 := ⟨none, [], none⟩, chain0 := [] }

theorem failed_tool_still_marked_executed_witness :
    ∃ st' rs',
      cotIter failEnv defaultCoTConfig dupCallText initialCoTState (initialRunState failEnv)
        = .cont st' rs'
      ∧ st'.executed_tool_calls
          = initialCoTState.executed_tool_calls.insert (canonical_tool_id "t" [])
      ∧ st'.last_tool_id = some (canonical_tool_id "t" [])
      ∧ st'.tools_run = initialCoTState.tools_run
      ∧ st'.mode = Mode.INTERACTIVE
      ∧ rs'.execLog = (initialRunState failEnv).execLog ++ [canonical_tool_id "t" []]
      ∧ is_duplicate_tool_call (canonical_tool_id "t" []) st' = true
      ∧ ∀ rs₂, cotIter failEnv defaultCoTConfig dupCallText st' rs₂ =
          .cont { st' with mode := Mode.FINALIZING }
            (append_model_note failEnv.agentName rs₂ (dupNote "t")) :=
  failed_tool_still_marked_executed failEnv defaultCoTConfig dupCallText initialCoTState
    (initialRunState failEnv) "t" [] [] rfl rfl (by rfl) (by rfl) (by rfl) rfl

/-! ## Claim C6: the sentinel path -/

theorem startsWithL_self (l : List Char) : startsWithL l l = true := by
  induction l with
  | nil => rfl
  | cons c rest ih => simp [startsWithL, ih]

theorem findSubIdx_isSome (pat : List Char) :
    ∀ cs : List Char, (∃ i, startsWithL pat (cs.drop i) = true) →
      (findSubIdx pat cs).isSome = true := by
  intro cs
  induction cs with
  | nil =>
    rintro ⟨i, h⟩
    have h' : startsWithL pat [] = true := by simpa using h
    unfold findSubIdx
    simp [h']
  | cons c rest ih =>
    rintro ⟨i, h⟩
    unfold findSubIdx
    cases hs : startsWithL pat (c :: rest) with
    | true => simp [hs]
    | false =>
      simp only [hs, Bool.false_eq_true, if_false]
      cases i with
      | zero =>
        rw [List.drop_zero] at h
        rw [h] at hs
        exact Bool.noConfusion hs
      | succ j =>
        rw [List.drop_succ_cons] at h
        have := ih ⟨j, h⟩
        simpa [Option.isSome_map] using this

theorem containsStr_append_self (a pat : String) : containsStr (a ++ pat) pat = true := by
  unfold containsStr
  apply findSubIdx_isSome
  refine ⟨a.toList.length, ?_⟩
  have hlist : (a ++ pat).toList = a.toList ++ pat.toList := by
    show (a ++ pat).data = a.data ++ pat.data
    exact String.data_append a pat
  rw [hlist, List.drop_left]
  exact startsWithL_self _

set_option maxRecDepth 4096 in
/-- C6: whenever the model text contains the sentinel, in any controller
state and mode, the iteration terminates the run successfully with final
answer exactly the text preceding the first sentinel occurrence,
right-stripped, and persists a trace; conversely every successful exit is
such a sentinel emission (the forced exit synthesizes a sentinel-bearing
text first), so the sentinel path is the only success exit. -/
theorem sentinel_only_success_exit :
    (∀ env cfg text st rs, contains_final_answer text = true →
      ∃ rs', cotIter env cfg text st rs
          = .done (.success (pyRstrip (beforeFirst text COT_END_PROMPT))) rs'
        ∧ rs'.persisted = rs.persisted ++
            [⟨env.query,
              toolPath (rs.chain ++ [modelRespMsg env.agentName
                (pyRstrip (beforeFirst text COT_END_PROMPT))]),
              pyRstrip (beforeFirst text COT_END_PROMPT)⟩]
        ∧ rs'.finals = rs.finals + 1)
    ∧ (∀ env cfg text st rs t rs',
        cotIter env cfg text st rs = .done (.success t) rs' →
        ∃ src, containsStr src COT_END_PROMPT = true
          ∧ t = pyRstrip (beforeFirst src COT_END_PROMPT)) := by
  constructor
  · intro env cfg text st rs h
    refine ⟨persist_trace env (pyRstrip (beforeFirst text COT_END_PROMPT))
      (emit_final_answer env.agentName text rs).2, ?_, rfl, rfl⟩
    unfold cotIter
    rw [if_pos h]
    rfl
  · intro env cfg text st rs t rs' h
    unfold cotIter at h
    by_cases c1 : contains_final_answer text = true
    · rw [if_pos c1] at h
      refine ⟨text, c1, ?_⟩
      cases h
      rfl
    · rw [if_neg c1] at h
      by_cases c2 : st.mode = Mode.FINALIZING
      · rw [if_pos c2] at h
        cases c3 : looks_like_tool_json text with
        | true =>
          rw [if_pos c3] at h
          by_cases c4 : st.finalize_nudges + 1 > cfg.max_finalize_nudges
          · rw [if_pos c4] at h
            refine ⟨forcedTextWithSentinel text, ?_, ?_⟩
            · exact containsStr_append_self (forcedSummary text ++ " ") COT_END_PROMPT
            · cases h
              rfl
          · rw [if_neg c4] at h
            exact StepRes.noConfusion h
        | false =>
          rw [if_neg (by simp [c3])] at h
          exact StepRes.noConfusion h
      · rw [if_neg c2] at h
        cases hd : detect_tool_calls text with
        | error e =>
          rw [hd] at h
          dsimp only at h
          injection h with h1 _
          exact RunOutcome.noConfusion h1
        | ok l =>
          rw [hd] at h
          cases l with
          | nil =>
            dsimp only at h
            exact StepRes.noConfusion h
          | cons pair rest =>
            obtain ⟨toolName, args⟩ := pair
            dsimp only at h
            cases c5 : justification_gate text st with
            | true =>
              rw [if_pos c5] at h
              exact StepRes.noConfusion h
            | false =>
            rw [if_neg (by simp [c5])] at h
            cases c6 : is_duplicate_tool_call (canonical_tool_id toolName args) st with
            | true =>
              rw [if_pos c6] at h
              exact StepRes.noConfusion h
            | false =>
            rw [if_neg (by simp [c6])] at h
            cases hex : execute_tool env toolName (canonical_tool_id toolName args) st
                (splitAppendReasoning env.agentName text rs) with
            | error e =>
              rw [hex] at h
              dsimp only at h
              injection h with h1 _
              exact RunOutcome.noConfusion h1
            | ok triple =>
            obtain ⟨ok, st1, rs2⟩ := triple
            rw [hex] at h
            cases ok with
            | false =>
              dsimp only at h
              exact StepRes.noConfusion h
            | true =>
              dsimp only at h
              by_cases c7 : cfg.auto_finalize_after_tool = true
              · rw [if_pos c7] at h
                exact StepRes.noConfusion h
              · rw [if_neg c7] at h
                by_cases c8 : st1.tools_run + 1 ≥ cfg.max_tool_steps
                · rw [if_pos c8] at h
                  exact StepRes.noConfusion h
                · rw [if_neg c8] at h
                  exact StepRes.noConfusion h

/-- Witness for C6's sentinel branch at a concrete text and state. -/
theorem sentinel_only_success_exit_witness :
    ∃ rs', cotIter scenarioEnv defaultCoTConfig "All companies listed. [END OF REASONING]"
        initialCoTState (initialRunState scenarioEnv)
      = .done (.success (pyRstrip (beforeFirst "All companies listed. [END OF REASONING]"
          COT_END_PROMPT))) rs'
      ∧ rs'.persisted = (initialRunState scenarioEnv).persisted ++
          [⟨scenarioEnv.query,
            toolPath ((initialRunState scenarioEnv).chain ++ [modelRespMsg scenarioEnv.agentName
              (pyRstrip (beforeFirst "All companies listed. [END OF REASONING]" COT_END_PROMPT))]),
            pyRstrip (beforeFirst "All companies listed. [END OF REASONING]" COT_END_PROMPT)⟩]
      ∧ rs'.finals = (initialRunState scenarioEnv).finals + 1 :=
  sentinel_only_success_exit.1 scenarioEnv defaultCoTConfig
    "All companies listed. [END OF REASONING]" initialCoTState
    (initialRunState scenarioEnv) (by rfl)

/-! ## Claim C1: bounded termination of the run loop -/

/-- C1 (amended): every run terminates within `max_iters` iterations and
ends in one of exactly four ways: a success that emits exactly one final
answer message; the max-iterations `RuntimeError`, raised after exactly
`max_iters` iterations with no final answer emitted; a `json.loads` error
propagating out of the loop-top tool-call detector (cot.py line 188 has no
handler); or an error propagating out of `Tooling.execute_tool_from_text`
inside `_execute_tool` (cot.py line 562 has no handler) — in the two error
cases, again with no final answer emitted. -/
theorem run_cot_bounded_outcomes (env : Env) (cfg : CoTConfig) :
    (run_cot env cfg).2.2 ≤ cfg.max_iters
    ∧ ((∃ t, (run_cot env cfg).1 = .success t) → (run_cot env cfg).2.1.finals = 1)
    ∧ ((run_cot env cfg).1 = .maxItersError →
        (run_cot env cfg).2.2 = cfg.max_iters ∧ (run_cot env cfg).2.1.finals = 0)
    ∧ ((∃ e, (run_cot env cfg).1 = .detectError e) → (run_cot env cfg).2.1.finals = 0)
    ∧ ((∃ e, (run_cot env cfg).1 = .execError e) → (run_cot env cfg).2.1.finals = 0)
    ∧ ((∃ t, (run_cot env cfg).1 = .success t) ∨ (run_cot env cfg).1 = .maxItersError
        ∨ (∃ e, (run_cot env cfg).1 = .detectError e)
        ∨ (∃ e, (run_cot env cfg).1 = .execError e)) := by
  unfold run_cot
  refine ⟨?_, ?_, ?_, ?_, ?_, ?_⟩
  · simpa using runAux_iters_le env cfg cfg.max_iters 0 initialCoTState (initialRunState env)
  · intro hex
    have := (runAux_finals env cfg cfg.max_iters 0 initialCoTState (initialRunState env)).1 hex
    simpa [initialRunState] using this
  · intro h
    constructor
    · simpa using runAux_maxIters_iters env cfg cfg.max_iters 0 initialCoTState
        (initialRunState env) h
    · have hno : ∀ t, (runAux env cfg cfg.max_iters 0 initialCoTState
          (initialRunState env)).1 ≠ .success t := by
        intro t ht
        rw [h] at ht
        exact RunOutcome.noConfusion ht
      have := (runAux_finals env cfg cfg.max_iters 0 initialCoTState (initialRunState env)).2 hno
      simpa [initialRunState] using this
  · rintro ⟨e, he⟩
    have hno : ∀ t, (runAux env cfg cfg.max_iters 0 initialCoTState
        (initialRunState env)).1 ≠ .success t := by
      intro t ht
      rw [he] at ht
      exact RunOutcome.noConfusion ht
    have := (runAux_finals env cfg cfg.max_iters 0 initialCoTState (initialRunState env)).2 hno
    simpa [initialRunState] using this
  · rintro ⟨e, he⟩
    have hno : ∀ t, (runAux env cfg cfg.max_iters 0 initialCoTState
        (initialRunState env)).1 ≠ .success t := by
      intro t ht
      rw [he] at ht
      exact RunOutcome.noConfusion ht
    have := (runAux_finals env cfg cfg.max_iters 0 initialCoTState (initialRunState env)).2 hno
    simpa [initialRunState] using this
  · cases hout : (runAux env cfg cfg.max_iters 0 initialCoTState (initialRunState env)).1 with
    | success t => exact Or.inl ⟨t, rfl⟩
    | maxItersError => exact Or.inr (Or.inl rfl)
    | detectError e => exact Or.inr (Or.inr (Or.inl ⟨e, rfl⟩))
    | execError e => exact Or.inr (Or.inr (Or.inr ⟨e, rfl⟩))

/-- An environment whose model text matches `TOOL_PATTERN` with a malformed
argument object on every iteration. -/
def badDetectEnv : Env :=
  { query := "q", agentName := "m", outputs := fun _ => malformedArgsText
    listTools := [], callTool := fun _ _ => none
    sandbox0 := ⟨none, [], none⟩, chain0 := [] }

/-- An environment whose model text carries a justified tool call with
nested arguments `\x7b"z": \x7b"b": 1\x7d, "a": 2\x7d`: the call itself
detects and parses, but `json.dumps(..., sort_keys=True)` re-serializes
the arguments to end in two closing braces, so the lazy `TOOL_PATTERN`
group re-detected on `minimal_json` inside `_execute_tool` captures the
unbalanced blob `\x7b"a":2,"z":\x7b"b":1\x7d` and `json.loads` raises. -/
def nestedArgsEnv : Env :=
  { query := "q", agentName := "m"
    outputs := fun _ =>
      "Because we must inspect the node. `\x7b\"name\": \"t\", \"arguments\": \x7b\"z\": \x7b\"b\": 1\x7d, \"a\": 2\x7d\x7d`"
    listTools := ["t"], callTool := fun _ _ => none
    sandbox0 := ⟨none, [], none⟩, chain0 := [] }

/-- C1 (counterexample): on `badDetectEnv` the run raises the loop-top
detector's JSON decoding error during iteration 0, and on `nestedArgsEnv`
the run raises the `json.loads` error of the re-detection inside
`_execute_tool` during iteration 0 — each after 1 of the 5 configured
iterations — so a run can fail without either emitting a final answer or
exhausting `max_iters`; exceeding `max_iters` is not the only fatal
condition. -/
theorem run_cot_counterexample :
    (run_cot badDetectEnv defaultCoTConfig).1 = .detectError "JSONDecodeError: \x7bbad\x7d"
    ∧ (run_cot badDetectEnv defaultCoTConfig).2.2 = 1
    ∧ (run_cot nestedArgsEnv defaultCoTConfig).1
        = .execError "JSONDecodeError: \x7b\"a\":2,\"z\":\x7b\"b\":1\x7d"
    ∧ (run_cot nestedArgsEnv defaultCoTConfig).2.2 = 1
    ∧ ¬((∃ t, (run_cot badDetectEnv defaultCoTConfig).1 = .success t)
        ∨ (run_cot badDetectEnv defaultCoTConfig).2.2 = defaultCoTConfig.max_iters)
    ∧ ¬((∃ t, (run_cot nestedArgsEnv defaultCoTConfig).1 = .success t)
        ∨ (run_cot nestedArgsEnv defaultCoTConfig).2.2 = defaultCoTConfig.max_iters) := by
  refine ⟨rfl, rfl, rfl, rfl, ?_, ?_⟩
  · rintro (⟨t, ht⟩ | hiter)
    · rw [show (run_cot badDetectEnv defaultCoTConfig).1
          = RunOutcome.detectError "JSONDecodeError: \x7bbad\x7d" from rfl] at ht
      exact RunOutcome.noConfusion ht
    · rw [show (run_cot badDetectEnv defaultCoTConfig).2.2 = 1 from rfl] at hiter
      exact absurd hiter (by decide)
  · rintro (⟨t, ht⟩ | hiter)
    · rw [show (run_cot nestedArgsEnv defaultCoTConfig).1
          = RunOutcome.execError "JSONDecodeError: \x7b\"a\":2,\"z\":\x7b\"b\":1\x7d"
          from rfl] at ht
      exact RunOutcome.noConfusion ht
    · rw [show (run_cot nestedArgsEnv defaultCoTConfig).2.2 = 1 from rfl] at hiter
      exact absurd hiter (by decide)

/-- Witness for the amended C1 on a concrete successful run. -/
theorem run_cot_bounded_outcomes_witness :
    (run_cot scenarioEnv defaultCoTConfig).2.1.finals = 1 :=
  (run_cot_bounded_outcomes scenarioEnv defaultCoTConfig).2.1
    ⟨"All companies listed.", by rfl⟩

/-- Witness for C9 on a fresh sandbox and reflexive similarity oracle. -/
theorem cot_init_seeds_once_witness :
    hasConsecDupUserRequest
      (cotInitSandbox (fun _ _ => 1) "list all companies" ⟨none, [], none⟩).messages = false
    ∧ cotInitSandbox (fun _ _ => 1) "list all companies"
        (cotInitSandbox (fun _ _ => 1) "list all companies" ⟨none, [], none⟩)
      = cotInitSandbox (fun _ _ => 1) "list all companies" ⟨none, [], none⟩ :=
  cot_init_seeds_once (fun _ _ => 1) "list all companies" ⟨none, [], none⟩
    (fun _ => rfl) rfl

/-! ## `ReasoningGraph` (reasoning.py)

`networkx.DiGraph` is modelled with insertion-ordered node and edge lists
(`successors` lists edge targets in insertion order, as the adjacency dict
does); `hashlib.sha256/md5` hex digests are the opaque deterministic
oracles `hS`/`hM`, and the sentence-transformer cosine similarity is the
oracle `sim`, as in the file header. Tool-call arguments reach `add_trace`
already rendered (`str(args)` is applied before hashing), so they are
strings here. -/

/-- Node attributes (`type`, `text`, `tool`, `args`); `get` on a missing
attribute is `none`. -/
structure NodeAttrs where
  ntype : String
  text : Option String
  tool : Option String
  args : Option String
deriving DecidableEq, Repr

/-- The graph plus the `query_index` of `ReasoningGraph`. -/
structure ReasoningGraph where
  nodes : List (String × NodeAttrs)
  edges : List (String × String)
  query_index : List (String × String)
deriving DecidableEq, Repr

/-- A fresh `ReasoningGraph()` (the embedder is external). -/
def emptyRG : ReasoningGraph := ⟨[], [], []⟩

/-- `graph.add_node(id, **attrs)`: update attributes in place when the node
exists, else append. -/
def addNode (g : ReasoningGraph) (id : String) (attrs : NodeAttrs) : ReasoningGraph :=
  if g.nodes.any (fun p => p.1 == id) then
    { g with nodes := g.nodes.map (fun p => if p.1 == id then (id, attrs) else p) }
  else { g with nodes := g.nodes ++ [(id, attrs)] }

/-- `graph.add_edge(u, v)`: appended once, first insertion order kept. -/
def addEdge (g : ReasoningGraph) (u v : String) : ReasoningGraph :=
  if g.edges.any (fun e => e.1 == u && e.2 == v) then g
  else { g with edges := g.edges ++ [(u, v)] }

/-- `query_index[q_id] = query` (dict assignment). -/
def upsertIndex (qi : List (String × String)) (k v : String) : List (String × String) :=
  if qi.any (fun p => p.1 == k) then qi.map (fun p => if p.1 == k then (k, v) else p)
  else qi ++ [(k, v)]

/-- Python `query.lower().split()`: whitespace-separated tokens, no
empties. -/
def pySplitWsAux : List Char → List Char → List String
  | acc, [] => if acc.isEmpty then [] else [String.mk acc.reverse]
  | acc, c :: rest =>
    if pySpace c then
      if acc.isEmpty then pySplitWsAux [] rest
      else String.mk acc.reverse :: pySplitWsAux [] rest
    else pySplitWsAux (c :: acc) rest

/-- Python `str.lower()` on the ASCII fragment (code points, structural
so the kernel can evaluate it). -/
def pyLower (s : String) : String :=
  String.mk (s.data.map (fun c =>
    if 'A' ≤ c ∧ c ≤ 'Z' then Char.ofNat (c.toNat + 32) else c))

/-- `ReasoningGraph._canonicalize` (reasoning.py lines 37-41):
sha256 (`hS`) of the sorted lowercase tokens joined by spaces. -/
def canonicalize (hS : String → String) (query : String) : String :=
  hS (String.intercalate " "
    (List.insertionSort (fun a b => pyStrLe a.data b.data)
      (pySplitWsAux [] (pyLower query).toList)))

/-- `f"{tool_name}:{hashlib.md5(str(args).encode()).hexdigest()}"`. -/
def toolId (hM : String → String) (tc : String × String) : String :=
  tc.1 ++ ":" ++ hM tc.2

/-- The tool node attributes of `add_trace`. -/
def toolAttrs (tc : String × String) : NodeAttrs :=
  ⟨"tool", none, some tc.1, some tc.2⟩

/-- The body of `add_trace`'s tool loop (reasoning.py lines 86-90). -/
def addToolNodes (hM : String → String) (a : ReasoningGraph × String)
    (tc : String × String) : ReasoningGraph × String :=
  (addEdge (addNode a.1 (toolId hM tc) (toolAttrs tc)) a.2 (toolId hM tc), toolId hM tc)

/-- `ReasoningGraph.add_trace` (reasoning.py lines 47-95); `if
final_answer:` is Python truthiness, so `None` and `""` add no answer
node. -/
def add_trace (hS hM : String → String) (g : ReasoningGraph) (query : String)
    (tool_calls : List (String × String)) (final_answer : Option String) : ReasoningGraph :=
  let qid := canonicalize hS query
  let g1 := addNode { g with query_index := upsertIndex g.query_index qid query } qid
    ⟨"query", some query, none, none⟩
  let acc := tool_calls.foldl (addToolNodes hM) (g1, qid)
  match final_answer with
  | none => acc.1
  | some ans =>
    if ans = "" then acc.1
    else addEdge (addNode acc.1 ("answer:" ++ hM ans) ⟨"answer", some ans, none, none⟩)
      acc.2 ("answer:" ++ hM ans)

/-- `ReasoningGraph.match_query` (reasoning.py lines 97-122): best strict
improvement over the indexed exemplars, returned iff it reaches the
threshold; `best_score` starts at 0. -/
def match_query (sim : String → String → ℚ) (g : ReasoningGraph) (query : String)
    (threshold : ℚ) : Option String :=
  let r := g.query_index.foldl (fun (acc : Option String × ℚ) kv =>
    if sim query kv.2 > acc.2 then (some kv.1, sim query kv.2) else acc) (none, 0)
  if r.2 ≥ threshold then r.1 else none

/-- `list(self.graph.successors(current))`: edge targets in insertion
order. -/
def successors (g : ReasoningGraph) (n : String) : List String :=
  (g.edges.filter (fun e => e.1 == n)).map (fun e => e.2)

/-- `self.graph.nodes[id].get("tool")`. -/
def nodeTool (g : ReasoningGraph) (id : String) : Option String :=
  match g.nodes.find? (fun p => p.1 == id) with
  | some p => p.2.tool
  | none => none

/-- Result of `get_plan`: no similarity match, the `while True` loop
diverging on a cyclic first-successor chain, or the collected list. -/
inductive PlanResult where
  | noMatch : PlanResult
  | diverges : PlanResult
  | plan (p : List (Option String)) : PlanResult
deriving DecidableEq, Repr

/-- The `while True` chain-following loop of `get_plan` (reasoning.py
lines 140-149). A deterministic first-successor chain longer than the node
count revisits a node and then cycles forever, so fuel `nodes.length + 1`
is exact: exhausting it is Python's non-termination. -/
def chase (g : ReasoningGraph) : Nat → String → List (Option String) → PlanResult
  | 0, _, _ => .diverges
  | fuel + 1, cur, acc =>
    match successors g cur with
    | [] => .plan acc
    | nxt :: _ => chase g fuel nxt (acc ++ [nodeTool g nxt])

/-- `ReasoningGraph.get_plan` (reasoning.py lines 124-149); `if not q_id:`
is truthiness, so an empty-string id also yields no plan. -/
def get_plan (sim : String → String → ℚ) (g : ReasoningGraph) (query : String) : PlanResult :=
  match match_query sim g query (85 / 100) with
  | none => .noMatch
  | some qid => if qid = "" then .noMatch else chase g (g.nodes.length + 1) qid []

/-! ## Claim C8: `get_plan` -/

/-- Consecutive edges of a chain. -/
def consecEdges : String → List String → List (String × String)
  | _, [] => []
  | prev, n :: rest => (prev, n) :: consecEdges n rest

/-- The first-successor chain relation: from `cur`, the successor lists are
exactly the singletons along `chain`, ending at a successor-free node. -/
def succChain (g : ReasoningGraph) : String → List String → Prop
  | cur, [] => successors g cur = []
  | cur, n :: rest => successors g cur = [n] ∧ succChain g n rest

theorem addNode_fresh (g : ReasoningGraph) (id : String) (attrs : NodeAttrs)
    (h : ∀ p ∈ g.nodes, p.1 ≠ id) :
    addNode g id attrs = { g with nodes := g.nodes ++ [(id, attrs)] } := by
  unfold addNode
  have hany : g.nodes.any (fun p => p.1 == id) = false := by
    rw [List.any_eq_false]
    intro p hp
    simpa using h p hp
  simp [hany]

theorem addEdge_fresh (g : ReasoningGraph) (u v : String)
    (h : ∀ e ∈ g.edges, e.2 ≠ v) :
    addEdge g u v = { g with edges := g.edges ++ [(u, v)] } := by
  unfold addEdge
  have hany : g.edges.any (fun e => e.1 == u && e.2 == v) = false := by
    rw [List.any_eq_false]
    intro e he
    simp [h e he]
  simp [hany]

theorem consecEdges_sources : ∀ (l : List String) (prev : String) (e : String × String),
    e ∈ consecEdges prev l → e.1 ∈ prev :: l := by
  intro l
  induction l with
  | nil => intro prev e he; exact absurd he (by simp [consecEdges])
  | cons n rest ih =>
    intro prev e he
    rcases (by simpa [consecEdges] using he :
        e = (prev, n) ∨ e ∈ consecEdges n rest) with h | h
    · simp [h]
    · have := ih n e h
      simp only [List.mem_cons] at this ⊢
      tauto

theorem consecEdges_targets : ∀ (l : List String) (prev : String) (e : String × String),
    e ∈ consecEdges prev l → e.2 ∈ l := by
  intro l
  induction l with
  | nil => intro prev e he; exact absurd he (by simp [consecEdges])
  | cons n rest ih =>
    intro prev e he
    rcases (by simpa [consecEdges] using he :
        e = (prev, n) ∨ e ∈ consecEdges n rest) with h | h
    · simp [h]
    · have := ih n e h
      simp only [List.mem_cons]
      tauto

theorem consecEdges_snoc : ∀ (l : List String) (prev x : String),
    consecEdges prev (l ++ [x]) = consecEdges prev l ++ [(l.getLastD prev, x)] := by
  intro l
  induction l with
  | nil => intro prev x; simp [consecEdges]
  | cons n rest ih =>
    intro prev x
    simp only [List.cons_append]
    show (prev, n) :: consecEdges n (rest ++ [x])
        = ((prev, n) :: consecEdges n rest) ++ [((n :: rest).getLastD prev, x)]
    rw [ih n x, List.getLastD_cons]
    simp

theorem fold_build (hM : String → String) :
    ∀ (tcs : List (String × String)) (g : ReasoningGraph) (prev : String),
      (∀ tc ∈ tcs, ∀ p ∈ g.nodes, p.1 ≠ toolId hM tc) →
      (∀ tc ∈ tcs, ∀ e ∈ g.edges, e.2 ≠ toolId hM tc) →
      (prev :: tcs.map (toolId hM)).Nodup →
      (tcs.foldl (addToolNodes hM) (g, prev)).1.nodes
          = g.nodes ++ tcs.map (fun tc => (toolId hM tc, toolAttrs tc))
        ∧ (tcs.foldl (addToolNodes hM) (g, prev)).1.edges
          = g.edges ++ consecEdges prev (tcs.map (toolId hM))
        ∧ (tcs.foldl (addToolNodes hM) (g, prev)).1.query_index = g.query_index
        ∧ (tcs.foldl (addToolNodes hM) (g, prev)).2 = (tcs.map (toolId hM)).getLastD prev := by
  intro tcs
  induction tcs with
  | nil =>
    intro g prev _ _ _
    exact ⟨by simp, by simp [consecEdges], rfl, rfl⟩
  | cons tc rest ih =>
    intro g prev hnode hedge hnd
    have htid_fresh_nodes : ∀ p ∈ g.nodes, p.1 ≠ toolId hM tc :=
      hnode tc (List.mem_cons_self tc rest)
    have htid_fresh_edges : ∀ e ∈ g.edges, e.2 ≠ toolId hM tc :=
      hedge tc (List.mem_cons_self tc rest)
    have hstep : addToolNodes hM (g, prev) tc =
        ({ g with nodes := g.nodes ++ [(toolId hM tc, toolAttrs tc)]
                  edges := g.edges ++ [(prev, toolId hM tc)] }, toolId hM tc) := by
      unfold addToolNodes
      rw [addNode_fresh g (toolId hM tc) (toolAttrs tc) htid_fresh_nodes]
      rw [addEdge_fresh _ prev (toolId hM tc) (by intro e he; exact htid_fresh_edges e he)]
    have htid_notin_rest : toolId hM tc ∉ rest.map (toolId hM) := by
      have := hnd.of_cons
      rw [List.map_cons] at this
      exact (List.nodup_cons.mp this).1
    have hih := ih { g with nodes := g.nodes ++ [(toolId hM tc, toolAttrs tc)]
                            edges := g.edges ++ [(prev, toolId hM tc)] } (toolId hM tc)
      (by
        intro tc' htc' p hp
        rcases List.mem_append.mp hp with h | h
        · exact hnode tc' (List.mem_cons_of_mem tc htc') p h
        · have hp2 : p = (toolId hM tc, toolAttrs tc) := by simpa using h
          rw [hp2]
          intro hcontra
          have hc2 : toolId hM tc = toolId hM tc' := hcontra
          exact htid_notin_rest (by rw [hc2]; exact List.mem_map_of_mem (toolId hM) htc')
      )
      (by
        intro tc' htc' e he
        rcases List.mem_append.mp he with h | h
        · exact hedge tc' (List.mem_cons_of_mem tc htc') e h
        · have he2 : e = (prev, toolId hM tc) := by simpa using h
          rw [he2]
          intro hcontra
          have hc2 : toolId hM tc = toolId hM tc' := hcontra
          exact htid_notin_rest (by rw [hc2]; exact List.mem_map_of_mem (toolId hM) htc')
      )
      (by
        have := hnd.of_cons
        rw [List.map_cons] at this
        exact this
      )
    simp only [List.foldl_cons, hstep]
    refine ⟨?_, ?_, ?_, ?_⟩
    · rw [hih.1]
      simp [List.append_assoc]
    · rw [hih.2.1]
      simp [consecEdges, List.append_assoc]
    · exact hih.2.2.1
    · rw [hih.2.2.2, List.map_cons, List.getLastD_cons]

theorem succChain_build (g : ReasoningGraph) :
    ∀ (chain : List String) (cur : String) (pre : List (String × String)),
      g.edges = pre ++ consecEdges cur chain →
      (∀ e ∈ pre, e.1 ∉ (cur :: chain)) →
      (cur :: chain).Nodup →
      succChain g cur chain := by
  intro chain
  induction chain with
  | nil =>
    intro cur pre hedges hpre _
    show successors g cur = []
    unfold successors
    rw [hedges]
    have : (pre ++ consecEdges cur []).filter (fun e => e.1 == cur) = [] := by
      rw [List.filter_eq_nil_iff]
      intro e he
      simp only [consecEdges, List.append_nil] at he
      have := hpre e he
      simp only [List.mem_cons, List.not_mem_nil, or_false] at this
      simpa using this
    rw [this]
    rfl
  | cons n rest ih =>
    intro cur pre hedges hpre hnd
    constructor
    · unfold successors
      rw [hedges]
      have h1 : pre.filter (fun e => e.1 == cur) = [] := by
        rw [List.filter_eq_nil_iff]
        intro e he
        have := hpre e he
        simp only [List.mem_cons] at this
        simpa using fun hc => this (Or.inl hc)
      have h2 : (consecEdges n rest).filter (fun e => e.1 == cur) = [] := by
        rw [List.filter_eq_nil_iff]
        intro e he
        have hsrc := consecEdges_sources rest n e he
        have hcur : cur ∉ n :: rest := (List.nodup_cons.mp hnd).1
        simp only [List.mem_cons] at hsrc hcur
        intro hc
        have : e.1 = cur := by simpa using hc
        rw [this] at hsrc
        exact hcur hsrc
      rw [show consecEdges cur (n :: rest) = (cur, n) :: consecEdges n rest from rfl]
      rw [List.filter_append]
      rw [h1]
      rw [show ((cur, n) :: consecEdges n rest).filter (fun e => e.1 == cur)
          = (cur, n) :: (consecEdges n rest).filter (fun e => e.1 == cur) from by
        simp [List.filter_cons]]
      rw [h2]
      rfl
    · apply ih n (pre ++ [(cur, n)])
      · rw [hedges]
        simp [List.append_assoc, consecEdges]
      · intro e he
        rcases List.mem_append.mp he with h | h
        · have := hpre e h
          simp only [List.mem_cons] at this ⊢
          tauto
        · have : e = (cur, n) := by simpa using h
          rw [this]
          have hcur : cur ∉ n :: rest := (List.nodup_cons.mp hnd).1
          exact hcur
      · exact hnd.of_cons

theorem chase_follows (g : ReasoningGraph) :
    ∀ (chain : List String) (cur : String) (acc : List (Option String)) (fuel : Nat),
      succChain g cur chain → fuel ≥ chain.length + 1 →
      chase g fuel cur acc = .plan (acc ++ chain.map (nodeTool g)) := by
  intro chain
  induction chain with
  | nil =>
    intro cur acc fuel h hf
    cases fuel with
    | zero => omega
    | succ f =>
      unfold chase
      rw [show successors g cur = [] from h]
      simp
  | cons n rest ih =>
    intro cur acc fuel h hf
    cases fuel with
    | zero => simp at hf
    | succ f =>
      unfold chase
      rw [h.1]
      dsimp only
      have := ih n (acc ++ [nodeTool g n]) f h.2 (by simp at hf ⊢; omega)
      rw [this]
      simp

theorem find?_key_unique :
    ∀ (l : List (String × NodeAttrs)) (id : String) (attrs : NodeAttrs),
      (id, attrs) ∈ l → (l.map Prod.fst).Nodup →
      l.find? (fun p => p.1 == id) = some (id, attrs) := by
  intro l
  induction l with
  | nil => intro id attrs hmem _; exact absurd hmem (List.not_mem_nil _)
  | cons hd tl ih =>
    intro id attrs hmem hnd
    rw [List.map_cons] at hnd
    have hc := List.nodup_cons.mp hnd
    rcases List.mem_cons.mp hmem with h | h
    · rw [← h]
      rw [List.find?_cons_of_pos _ (by simp)]
    · have hne : hd.1 ≠ id := by
        intro hc0
        exact hc.1 (by rw [hc0]; exact List.mem_map_of_mem Prod.fst h)
      rw [List.find?_cons_of_neg _ (by simpa using hne)]
      exact ih id attrs h hc.2

theorem match_query_below_threshold (sim : String → String → ℚ) (g : ReasoningGraph)
    (query : String) (h : ∀ kv ∈ g.query_index, sim query kv.2 < 85 / 100) :
    match_query sim g query (85 / 100) = none := by
  unfold match_query
  suffices hs : ∀ (l : List (String × String)) (acc : Option String × ℚ),
      (∀ kv ∈ l, sim query kv.2 < 85 / 100) → acc.2 < 85 / 100 →
      (l.foldl (fun (acc : Option String × ℚ) kv =>
        if sim query kv.2 > acc.2 then (some kv.1, sim query kv.2) else acc) acc).2
        < 85 / 100 by
    have hlt := hs g.query_index (none, 0) h (by norm_num)
    dsimp only
    rw [if_neg (not_le.mpr hlt)]
  intro l
  induction l with
  | nil =>
    intro acc _ h2
    simpa using h2
  | cons kv rest ih =>
    intro acc h1 h2
    simp only [List.foldl_cons]
    by_cases hc : sim query kv.2 > acc.2
    · rw [if_pos hc]
      exact ih _ (fun k hk => h1 k (List.mem_cons_of_mem kv hk))
        (h1 kv (List.mem_cons_self kv rest))
    · rw [if_neg hc]
      exact ih _ (fun k hk => h1 k (List.mem_cons_of_mem kv hk)) h2

/-- C8 (amended): `get_plan` returns no plan when no indexed exemplar
reaches the similarity threshold 0.85; otherwise it follows the single
first-successor chain from the matched query node until a node with no
successors, collecting each traversed node's `tool` attribute — the tool
name for tool nodes, but `None` for the trailing answer node of a trace
recorded with a final answer. -/
theorem get_plan_amended :
    (∀ (sim : String → String → ℚ) (g : ReasoningGraph) (query : String),
      (∀ kv ∈ g.query_index, sim query kv.2 < 85 / 100) →
      get_plan sim g query = .noMatch)
    ∧ (∀ (hS hM : String → String) (sim : String → String → ℚ) (q q' : String)
        (tcs : List (String × String)) (ans : String),
        ans ≠ "" →
        (canonicalize hS q :: tcs.map (toolId hM) ++ ["answer:" ++ hM ans]).Nodup →
        canonicalize hS q ≠ "" →
        match_query sim (add_trace hS hM emptyRG q tcs (some ans)) q' (85 / 100)
          = some (canonicalize hS q) →
        get_plan sim (add_trace hS hM emptyRG q tcs (some ans)) q'
          = .plan (tcs.map (fun tc => some tc.1) ++ [none])) := by
  constructor
  · intro sim g query h
    unfold get_plan
    rw [match_query_below_threshold sim g query h]
  · intro hS hM sim q q' tcs ans hans hnd hqid hmatch
    set qid := canonicalize hS q with hqiddef
    set aid := "answer:" ++ hM ans with haiddef
    set tids := tcs.map (toolId hM) with htidsdef
    have hnd_qid_tids : (qid :: tids).Nodup := by
      refine hnd.sublist ?_
      exact List.cons_sublist_cons.mpr (List.sublist_append_left tids [aid])
    have hq_not : qid ∉ tids ++ [aid] := (List.nodup_cons.mp hnd).1
    have htail_nd : (tids ++ [aid]).Nodup := (List.nodup_cons.mp hnd).2
    have haid_not_tids : aid ∉ tids := fun hmem =>
      (List.disjoint_of_nodup_append htail_nd) hmem (List.mem_singleton_self aid)
    have hfold := fold_build hM tcs ⟨[(qid, ⟨"query", some q, none, none⟩)], [], [(qid, q)]⟩ qid
      (by
        intro tc htc p hp
        have hp2 : p = (qid, (⟨"query", some q, none, none⟩ : NodeAttrs)) := by simpa using hp
        rw [hp2]
        intro hcontra
        have hcontra' : qid = toolId hM tc := hcontra
        have hqmem : qid ∈ tids := by
          rw [hcontra', htidsdef]
          exact List.mem_map_of_mem (toolId hM) htc
        exact (List.nodup_cons.mp hnd_qid_tids).1 hqmem)
      (by intro tc _ e he; exact absurd he (List.not_mem_nil e))
      hnd_qid_tids
    have hbase : addNode { emptyRG with query_index := upsertIndex emptyRG.query_index qid q }
        qid ⟨"query", some q, none, none⟩
        = (⟨[(qid, ⟨"query", some q, none, none⟩)], [], [(qid, q)]⟩ : ReasoningGraph) := rfl
    have hgf : add_trace hS hM emptyRG q tcs (some ans)
        = ⟨[(qid, ⟨"query", some q, none, none⟩)]
             ++ tcs.map (fun tc => (toolId hM tc, toolAttrs tc))
             ++ [(aid, ⟨"answer", some ans, none, none⟩)],
           consecEdges qid (tids ++ [aid]),
           [(qid, q)]⟩ := by
      unfold add_trace
      dsimp only
      rw [hbase]
      rw [if_neg hans]
      rw [addNode_fresh _ aid _ (by
        intro p hp
        rw [hfold.1] at hp
        rcases List.mem_append.mp hp with h | h
        · have hp2 : p = (qid, (⟨"query", some q, none, none⟩ : NodeAttrs)) := by simpa using h
          rw [hp2]
          intro hcontra
          have hcontra' : qid = aid := hcontra
          exact hq_not (by
            rw [hcontra']
            exact List.mem_append_right tids (List.mem_singleton_self aid))
        · obtain ⟨tc, htc, rfl⟩ := List.mem_map.mp h
          intro hcontra
          have hcontra' : toolId hM tc = aid := hcontra
          exact haid_not_tids (by
            rw [← hcontra', htidsdef]
            exact List.mem_map_of_mem (toolId hM) htc))]
      rw [addEdge_fresh _ _ aid (by
        intro e he
        dsimp only at he
        rw [hfold.2.1] at he
        simp only [List.nil_append] at he
        have htgt := consecEdges_targets tids qid e he
        intro hcontra
        exact haid_not_tids (by rw [← hcontra]; exact htgt))]
      rw [hfold.2.2.2]
      dsimp only
      rw [hfold.1, hfold.2.1, hfold.2.2.1]
      simp [consecEdges_snoc, List.append_assoc]
      rw [htidsdef, List.getLast?_map]
    have hsucc : succChain (add_trace hS hM emptyRG q tcs (some ans)) qid (tids ++ [aid]) := by
      apply succChain_build _ (tids ++ [aid]) qid []
      · rw [hgf]
        simp
      · intro e he
        exact absurd he (List.not_mem_nil e)
      · exact hnd
    have hlen : (add_trace hS hM emptyRG q tcs (some ans)).nodes.length = tcs.length + 2 := by
      rw [hgf]
      simp
    unfold get_plan
    rw [hmatch]
    dsimp only
    rw [if_neg hqid]
    rw [chase_follows _ (tids ++ [aid]) qid []
      ((add_trace hS hM emptyRG q tcs (some ans)).nodes.length + 1) hsucc
      (by rw [hlen]; simp [htidsdef])]
    have hkeyeq : ((add_trace hS hM emptyRG q tcs (some ans)).nodes.map Prod.fst)
        = qid :: (tids ++ [aid]) := by
      rw [hgf]
      simp [htidsdef, Function.comp]
    have hkeys : ((add_trace hS hM emptyRG q tcs (some ans)).nodes.map Prod.fst).Nodup := by
      rw [hkeyeq]
      exact hnd
    have htool_val : ∀ tc ∈ tcs,
        nodeTool (add_trace hS hM emptyRG q tcs (some ans)) (toolId hM tc) = some tc.1 := by
      intro tc htc
      unfold nodeTool
      have hmem : (toolId hM tc, toolAttrs tc)
          ∈ (add_trace hS hM emptyRG q tcs (some ans)).nodes := by
        rw [hgf]
        exact List.mem_append_left _ (List.mem_append_right _ (List.mem_map_of_mem _ htc))
      rw [find?_key_unique _ _ _ hmem hkeys]
      rfl
    have hans_val : nodeTool (add_trace hS hM emptyRG q tcs (some ans)) aid = none := by
      unfold nodeTool
      have hmem : (aid, (⟨"answer", some ans, none, none⟩ : NodeAttrs))
          ∈ (add_trace hS hM emptyRG q tcs (some ans)).nodes := by
        rw [hgf]
        exact List.mem_append_right _ (List.mem_singleton_self _)
      rw [find?_key_unique _ _ _ hmem hkeys]
    rw [List.map_append]
    have h1 : tids.map (nodeTool (add_trace hS hM emptyRG q tcs (some ans)))
        = tcs.map (fun tc => some tc.1) := by
      rw [htidsdef, List.map_map]
      apply List.map_congr_left
      intro tc htc
      exact htool_val tc htc
    have h2 : [aid].map (nodeTool (add_trace hS hM emptyRG q tcs (some ans))) = [none] := by
      simp [hans_val]
    rw [h1, h2]
    simp

/-- Injective stand-in for the sha256 query hash of `_canonicalize`. -/
def demoHashQ : String → String := fun s => "Q:" ++ s

/-- Injective stand-in for the md5 hash used in tool and answer ids. -/
def demoHashM : String → String := fun s => "H:" ++ s

/-- A similarity oracle that matches everything (cosine similarity 1). -/
def demoSim : String → String → ℚ := fun _ _ => 1

/-- C8 counterexample: on a recorded trace with one tool call and a final
answer, `get_plan` returns `[some "t1", none]` — the trailing `None` comes
from the answer node, which has no `tool` attribute, so the plan is not
the list of tool names `[some "t1"]` that the claim describes. -/
theorem get_plan_counterexample :
    get_plan demoSim (add_trace demoHashQ demoHashM emptyRG "q"
        [("t1", "a1")] (some "ans")) "q"
      = .plan [some "t1", none]
    ∧ PlanResult.plan [some "t1", none] ≠ PlanResult.plan [some "t1"] := by
  constructor
  · have hm : match_query demoSim (add_trace demoHashQ demoHashM emptyRG "q"
        [("t1", "a1")] (some "ans")) "q" (85 / 100)
        = some (canonicalize demoHashQ "q") := by
      have hqi : (add_trace demoHashQ demoHashM emptyRG "q"
          [("t1", "a1")] (some "ans")).query_index = [("Q:q", "q")] := by decide
      unfold match_query
      rw [hqi]
      simp only [List.foldl_cons, List.foldl_nil, demoSim]
      rw [if_pos (by norm_num)]
      rw [if_pos (by norm_num)]
      decide
    unfold get_plan
    rw [hm]
    dsimp only
    rw [if_neg (by decide : ¬ (canonicalize demoHashQ "q") = "")]
    decide
  · decide

/-- C8 witness: the amended theorem applied at concrete inputs — an empty
graph yields `.noMatch`, and a two-tool trace with a final answer yields
the two tool names followed by `none` for the answer node. -/
theorem get_plan_amended_witness :
    get_plan demoSim emptyRG "nope" = .noMatch
    ∧ get_plan demoSim (add_trace demoHashQ demoHashM emptyRG "q"
        [("t1", "a1"), ("t2", "a2")] (some "ans")) "q"
      = .plan [some "t1", some "t2", none] := by
  refine ⟨get_plan_amended.1 demoSim emptyRG "nope" ?_,
    get_plan_amended.2 demoHashQ demoHashM demoSim "q" "q"
      [("t1", "a1"), ("t2", "a2")] "ans" ?_ ?_ ?_ ?_⟩
  · intro kv h
    exact absurd h (List.not_mem_nil kv)
  · decide
  · decide
  · decide
  · have hqi : (add_trace demoHashQ demoHashM emptyRG "q"
        [("t1", "a1"), ("t2", "a2")] (some "ans")).query_index = [("Q:q", "q")] := by
      decide
    unfold match_query
    rw [hqi]
    simp only [List.foldl_cons, List.foldl_nil, demoSim]
    rw [if_pos (by norm_num)]
    rw [if_pos (by norm_num)]
    decide
